import Mathlib

/-!
Verification of the data-manipulator pipeline (clinical spreadsheet
de-identification).  The JavaScript source is shallowly embedded: rows are
association lists from column names to cell values, JavaScript numbers are
modelled as rationals, fallible functions return `Except String`, and the
process-wide random source is an explicitly passed stream of draws.

The repository contains four historical variants of the script; where they
diverge the embeddings are suffixed (`_part000`, `_part002`, ...) after the
source file they come from.

Rational arithmetic is written through the `mkRat`-based helpers `qAdd`,
`qSub`, `qMul`, `qDiv` so that every definition evaluates inside the kernel;
the bridge lemmas `qAdd_eq` etc. identify them with the ordinary field
operations for symbolic reasoning.
-/

/-- Addition on `ℚ` through `mkRat`, so that it reduces definitionally. -/
def qAdd (a b : ℚ) : ℚ := mkRat (a.num * (b.den : ℤ) + b.num * (a.den : ℤ)) (a.den * b.den)

/-- Subtraction on `ℚ` through `mkRat`. -/
def qSub (a b : ℚ) : ℚ := mkRat (a.num * (b.den : ℤ) - b.num * (a.den : ℤ)) (a.den * b.den)

/-- Multiplication on `ℚ` through `mkRat`. -/
def qMul (a b : ℚ) : ℚ := mkRat (a.num * b.num) (a.den * b.den)

/-- Division on `ℚ` through `mkRat` (division by zero yields zero, matching
`Rat.inv 0 = 0`; the sources guard their only division by a zero test). -/
def qDiv (a b : ℚ) : ℚ :=
  if b.num < 0 then mkRat (a.num * -(b.den : ℤ)) (a.den * b.num.natAbs)
  else mkRat (a.num * (b.den : ℤ)) (a.den * b.num.natAbs)

theorem ratNumCast (a : ℚ) : (a.num : ℚ) = a * (a.den : ℚ) :=
  (div_eq_iff (by positivity)).mp (Rat.num_div_den a)

theorem qAdd_eq (a b : ℚ) : qAdd a b = a + b := by
  rw [qAdd, Rat.mkRat_eq_div]
  push_cast
  rw [div_eq_iff (by positivity), ratNumCast a, ratNumCast b]
  ring

theorem qSub_eq (a b : ℚ) : qSub a b = a - b := by
  rw [qSub, Rat.mkRat_eq_div]
  push_cast
  rw [div_eq_iff (by positivity), ratNumCast a, ratNumCast b]
  ring

theorem qMul_eq (a b : ℚ) : qMul a b = a * b := by
  rw [qMul, Rat.mkRat_eq_div]
  push_cast
  rw [div_eq_iff (by positivity), ratNumCast a, ratNumCast b]
  ring

theorem qDiv_eq (a b : ℚ) : qDiv a b = a / b := by
  rcases lt_trichotomy b.num 0 with hb | hb | hb
  · have hbne : b ≠ 0 := fun h => by simp [h] at hb
    have hbq : (b.num : ℚ) < 0 := by exact_mod_cast hb
    rw [qDiv, if_pos hb, Rat.mkRat_eq_div]
    push_cast [Int.cast_natAbs]
    rw [abs_of_neg hbq]
    rw [div_eq_div_iff (mul_ne_zero (by positivity) (neg_ne_zero.mpr (ne_of_lt hbq))) hbne,
      ratNumCast a, ratNumCast b]
    ring
  · have hb0 : b = 0 := by
      have h := Rat.num_div_den b
      rw [hb] at h
      simpa using h.symm
    rw [qDiv, if_neg (by omega), Rat.mkRat_eq_div]
    simp [hb, hb0]
  · have hbne : b ≠ 0 := fun h => by simp [h] at hb
    have hbq : (0 : ℚ) < (b.num : ℚ) := by exact_mod_cast hb
    rw [qDiv, if_neg (by omega), Rat.mkRat_eq_div]
    push_cast [Int.cast_natAbs]
    rw [abs_of_pos hbq]
    rw [div_eq_div_iff (mul_ne_zero (by positivity) (ne_of_gt hbq)) hbne,
      ratNumCast a, ratNumCast b]
    ring

/-- A JavaScript cell value: `null`, a number, or a string.  (`Date`-valued
cells, produced only under a parse option no claim exercises, and `undefined`,
which is represented by `Option.none` at the lookup level, are outside the
constructor set.) -/
inductive Value where
  | vNull : Value
  | vNum (q : ℚ) : Value
  | vStr (s : String) : Value
deriving DecidableEq, Repr

/-- A row: an ordered association list from column name to cell value, as a
JavaScript object.  A key absent from the list models an absent property
(`undefined`), distinct from a present `vNull`. -/
abbrev Row := List (String × Value)

deriving instance DecidableEq for Except

/-- Property lookup `obj[key]`: `none` models `undefined`. -/
def assocGet {β : Type} : List (String × β) → String → Option β
  | [], _ => none
  | (k', v) :: t, k => if k' = k then some v else assocGet t k

/-- Property assignment `obj[key] = v`: replaces the value in place if the key
exists (JavaScript keeps the key's position), otherwise appends the key. -/
def assocSet {β : Type} : List (String × β) → String → β → List (String × β)
  | [], k, v => [(k, v)]
  | (k', v') :: t, k, v => if k' = k then (k, v) :: t else (k', v') :: assocSet t k v

def getVal (row : Row) (key : String) : Option Value := assocGet row key

def setVal (row : Row) (key : String) (v : Value) : Row := assocSet row key v

/-- The characters JavaScript `String.prototype.trim` (and the `\s` regex
class) treats as whitespace, restricted to those that occur in this
repository's headers: space, tab, CR/LF, vertical tab, form feed, the
non-breaking space U+00A0, the BOM U+FEFF and the line/paragraph separators.
Note the zero-width space U+200B is NOT JavaScript whitespace. -/
def jsWhitespaceChar (c : Char) : Bool :=
  c == ' ' || c == '\t' || c == '\n' || c == '\r' ||
  c == Char.ofNat 0x0B || c == Char.ofNat 0x0C ||
  c == Char.ofNat 0xA0 || c == Char.ofNat 0xFEFF ||
  c == Char.ofNat 0x2028 || c == Char.ofNat 0x2029

/-- ASCII case folding; the headers this program matches contain only ASCII
letters besides punctuation and the special spaces. -/
def jsToLowerChar (c : Char) : Char :=
  if 'A' ≤ c ∧ c ≤ 'Z' then Char.ofNat (c.toNat + 32) else c

def jsToLower (s : String) : String := ⟨s.data.map jsToLowerChar⟩

def jsTrimList (l : List Char) : List Char :=
  ((l.dropWhile jsWhitespaceChar).reverse.dropWhile jsWhitespaceChar).reverse

/-- `s.trim()` of JavaScript. -/
def jsTrim (s : String) : String := ⟨jsTrimList s.data⟩

/-- `s.toLowerCase().trim()`, the normal form used by the resolver. -/
def jsLowerTrim (s : String) : String := jsTrim (jsToLower s)

/-- `findColumnCaseInsensitive` of script.js: first column whose
lower-cased, trimmed form equals the lower-cased, trimmed target. -/
def findColumnCaseInsensitive (columns : List String) (targetCol : String) : Option String :=
  let targetLower := jsLowerTrim targetCol
  columns.find? (fun col => jsLowerTrim col == targetLower)

/-- The variant of `findColumnCaseInsensitive` found in part_000 and
part_002: lower-cases but does not trim. -/
def findColumnNoTrim (columns : List String) (targetCol : String) : Option String :=
  let targetLower := jsToLower targetCol
  columns.find? (fun col => jsToLower col == targetLower)

/-- Numeric value of a digit string, as `parseInt`/`parseFloat` applied to an
all-digits string. -/
def digitsToNat (l : List Char) : ℕ :=
  l.foldl (fun n c => 10 * n + (c.toNat - 48)) 0

/-- Leading-prefix float parsing, as JavaScript `parseFloat`: skip leading
whitespace, optional sign, integer digits, optional fraction digits; trailing
garbage is ignored; `none` models `NaN`.  (Exponent notation, `Infinity` and
hex forms never occur in this data and are not modelled.) -/
def parseFloatCore (l : List Char) : Option ℚ :=
  let l1 := l.dropWhile jsWhitespaceChar
  let (sign, l2) : ℤ × List Char :=
    match l1 with
    | '-' :: t => (-1, t)
    | '+' :: t => (1, t)
    | _ => (1, l1)
  let ip := l2.takeWhile Char.isDigit
  let r1 := l2.dropWhile Char.isDigit
  let fp :=
    match r1 with
    | '.' :: t => t.takeWhile Char.isDigit
    | _ => []
  if ip.isEmpty && fp.isEmpty then none
  else some (mkRat (sign * ((digitsToNat ip : ℤ) * 10 ^ fp.length + (digitsToNat fp : ℤ)))
    (10 ^ fp.length))

/-- `parseFloat(value)`: the argument is coerced to a string first, so `null`
stringifies to `"null"` and parses to `NaN`. -/
def jsParseFloat : Value → Option ℚ
  | .vNum q => some q
  | .vStr s => parseFloatCore s.data
  | .vNull => none

/-- `parseFloat(row[col])` where the property may be absent (`undefined`,
which stringifies to `"undefined"` and parses to `NaN`). -/
def jsParseFloatOpt (o : Option Value) : Option ℚ := o.bind jsParseFloat

/-- Whole-string parse used by `Number(value)` coercion on a trimmed,
non-empty string: sign and digits with optional fraction, nothing else;
`none` models `NaN`. -/
def parseFullNumber (l : List Char) : Option ℚ :=
  let (sign, l2) : ℤ × List Char :=
    match l with
    | '-' :: t => (-1, t)
    | '+' :: t => (1, t)
    | _ => (1, l)
  let ip := l2.takeWhile Char.isDigit
  let r1 := l2.dropWhile Char.isDigit
  let (fp, r2) :=
    match r1 with
    | '.' :: t => (t.takeWhile Char.isDigit, t.dropWhile Char.isDigit)
    | _ => ([], r1)
  if (ip.isEmpty && fp.isEmpty) || !r2.isEmpty then none
  else some (mkRat (sign * ((digitsToNat ip : ℤ) * 10 ^ fp.length + (digitsToNat fp : ℤ)))
    (10 ^ fp.length))

/-- `Number(value)` coercion: `Number(null) = 0`, a blank string coerces to
`0`; `none` models `NaN`. -/
def jsToNumber : Value → Option ℚ
  | .vNull => some 0
  | .vNum q => some q
  | .vStr s =>
    let t := jsTrimList s.data
    if t.isEmpty then some 0 else parseFullNumber t

/-- `isNumeric` of the source: `!isNaN(parseFloat(value)) && isFinite(value)`
(the second conjunct coerces the raw value via `Number`). -/
def isNumeric (v : Value) : Bool :=
  (jsParseFloat v).isSome && (jsToNumber v).isSome

/-- Fractional decimal digits of the remainder `r` over denominator `d`, used
by number-to-string coercion; the fuel bounds the expansion (only terminating
decimals occur in this development). -/
def fracDigits : ℕ → ℕ → ℕ → List Char
  | 0, _, _ => []
  | fuel + 1, r, d =>
    if r = 0 then []
    else Char.ofNat (48 + r * 10 / d) :: fracDigits fuel (r * 10 % d) d

/-- `String(n)` for a JavaScript number: sign, integer part, and fractional
digits when the value is not an integer. -/
def ratToString (q : ℚ) : String :=
  let sign := if q < 0 then "-" else ""
  let n := q.num.natAbs
  let d := q.den
  if n % d = 0 then sign ++ toString (n / d)
  else sign ++ toString (n / d) ++ "." ++ ⟨fracDigits 30 (n % d) d⟩

/-- `String(v)`: the string coercion JavaScript applies to an object key, so
the number `8` and the string `"8"` collide on the key `"8"`. -/
def valueToKey : Option Value → String
  | none => "undefined"
  | some .vNull => "null"
  | some (.vStr s) => s
  | some (.vNum q) => ratToString q

/-- Worker for `uniqueFirst`: `seen` accumulates the elements already kept. -/
def uniqueFirstAux {α : Type} [DecidableEq α] : List α → List α → List α
  | _, [] => []
  | seen, x :: t =>
    if x ∈ seen then uniqueFirstAux seen t else x :: uniqueFirstAux (x :: seen) t

/-- Insertion-order deduplication: the element list of a JavaScript `Set`
populated by a `forEach` loop (first occurrence kept). -/
def uniqueFirst {α : Type} [DecidableEq α] (l : List α) : List α := uniqueFirstAux [] l

example : jsLowerTrim "  Pnr" = "pnr" := by decide
example : jsLowerTrim "pnr " = "pnr" := by decide
example : findColumnCaseInsensitive ["PNR"] "pnr" = some "PNR" := by decide
example : jsParseFloat (.vStr "4.5 m/s") = some (mkRat 9 2) := by decide
example : isNumeric (.vStr "12abc") = false := by decide
example : isNumeric (.vStr "12.5") = true := by decide
example : valueToKey (some (.vNum 8)) = "8" := by decide
example : valueToKey (some (.vStr "8")) = "8" := by decide
example : valueToKey (some (.vNum (mkRat 17 2))) = "8.5" := by decide
example : uniqueFirst [1, 2, 1, 3] = [1, 2, 3] := by decide

/-! ### Basic lemmas about the object and set primitives -/

theorem assocGet_assocSet_self {β : Type} (l : List (String × β)) (k : String) (v : β) :
    assocGet (assocSet l k v) k = some v := by
  induction l with
  | nil => simp [assocGet, assocSet]
  | cons p t ih =>
    by_cases h : p.1 = k
    · simp [assocSet, assocGet, h]
    · simpa [assocSet, assocGet, h] using ih

theorem assocGet_assocSet_ne {β : Type} (l : List (String × β)) (k k' : String) (v : β)
    (h : k' ≠ k) : assocGet (assocSet l k v) k' = assocGet l k' := by
  have hkk : k ≠ k' := Ne.symm h
  induction l with
  | nil => simp [assocGet, assocSet, hkk]
  | cons p t ih =>
    by_cases hp : p.1 = k
    · subst hp
      simp [assocSet, assocGet, hkk]
    · simp [assocSet, assocGet, hp, ih]

theorem assocSet_eq_append {β : Type} (l : List (String × β)) (k : String) (v : β)
    (h : assocGet l k = none) : assocSet l k v = l ++ [(k, v)] := by
  induction l with
  | nil => simp [assocSet]
  | cons p t ih =>
    by_cases hp : p.1 = k
    · simp [assocGet, hp] at h
    · simp only [assocGet, hp, if_false] at h
      simp [assocSet, hp, ih h]

theorem assocGet_append {β : Type} (l1 l2 : List (String × β)) (k : String) :
    assocGet (l1 ++ l2) k =
      (match assocGet l1 k with
       | some v => some v
       | none => assocGet l2 k) := by
  induction l1 with
  | nil => simp [assocGet]
  | cons p t ih => by_cases hp : p.1 = k <;> simp [assocGet, hp, ih]

theorem mem_uniqueFirstAux {α : Type} [DecidableEq α] (a : α) :
    ∀ (l seen : List α), a ∈ uniqueFirstAux seen l ↔ a ∈ l ∧ a ∉ seen := by
  intro l
  induction l with
  | nil => intro seen; simp [uniqueFirstAux]
  | cons x t ih =>
    intro seen
    rw [uniqueFirstAux]
    by_cases hx : x ∈ seen
    · rw [if_pos hx, ih]
      simp only [List.mem_cons]
      constructor
      · rintro ⟨h1, h2⟩; exact ⟨Or.inr h1, h2⟩
      · rintro ⟨h1 | h1, h2⟩
        · exact absurd (h1 ▸ hx) h2
        · exact ⟨h1, h2⟩
    · rw [if_neg hx]
      simp only [List.mem_cons, ih, List.mem_cons]
      constructor
      · rintro (rfl | ⟨h1, h2⟩)
        · exact ⟨Or.inl rfl, hx⟩
        · exact ⟨Or.inr h1, fun hs => h2 (Or.inr hs)⟩
      · rintro ⟨rfl | h1, h2⟩
        · exact Or.inl rfl
        · by_cases hax : a = x
          · exact Or.inl hax
          · refine Or.inr ⟨h1, fun hmem => ?_⟩
            rcases hmem with h' | h'
            · exact hax h'
            · exact h2 h'

theorem mem_uniqueFirst {α : Type} [DecidableEq α] (a : α) (l : List α) :
    a ∈ uniqueFirst l ↔ a ∈ l := by
  rw [uniqueFirst, mem_uniqueFirstAux]
  simp

theorem nodup_uniqueFirstAux {α : Type} [DecidableEq α] :
    ∀ (l seen : List α), (uniqueFirstAux seen l).Nodup := by
  intro l
  induction l with
  | nil => intro seen; simp [uniqueFirstAux]
  | cons x t ih =>
    intro seen
    rw [uniqueFirstAux]
    by_cases hx : x ∈ seen
    · rw [if_pos hx]; exact ih seen
    · rw [if_neg hx]
      refine List.nodup_cons.mpr ⟨fun hmem => ?_, ih (x :: seen)⟩
      have := (mem_uniqueFirstAux x t (x :: seen)).mp hmem
      simp at this

theorem nodup_uniqueFirst {α : Type} [DecidableEq α] (l : List α) :
    (uniqueFirst l).Nodup := nodup_uniqueFirstAux l []

theorem uniqueFirstAux_map {α β : Type} [DecidableEq α] [DecidableEq β] (f : α → β) :
    ∀ (l seen : List α),
      (∀ a ∈ seen ++ l, ∀ b ∈ seen ++ l, f a = f b → a = b) →
      uniqueFirstAux (seen.map f) (l.map f) = (uniqueFirstAux seen l).map f := by
  intro l
  induction l with
  | nil => intro seen _; simp [uniqueFirstAux]
  | cons x t ih =>
    intro seen hinj
    have hx : x ∈ seen ++ x :: t := by simp
    have hmem : f x ∈ seen.map f ↔ x ∈ seen := by
      constructor
      · rintro hm
        obtain ⟨a, ha, hfa⟩ := List.mem_map.mp hm
        have : a = x := hinj a (by simp [ha]) x hx hfa
        exact this ▸ ha
      · intro hm; exact List.mem_map.mpr ⟨x, hm, rfl⟩
    simp only [List.map_cons, uniqueFirstAux]
    by_cases hxs : x ∈ seen
    · rw [if_pos (hmem.mpr hxs), if_pos hxs]
      exact ih seen (fun a ha b hb => hinj a (by simp at ha ⊢; tauto) b (by simp at hb ⊢; tauto))
    · rw [if_neg (fun h => hxs (hmem.mp h)), if_neg hxs, List.map_cons]
      have : (x :: seen).map f = f x :: seen.map f := rfl
      rw [← this, ih (x :: seen) (fun a ha b hb => hinj a (by simp at ha ⊢; tauto) b
        (by simp at hb ⊢; tauto))]

theorem uniqueFirst_map {α β : Type} [DecidableEq α] [DecidableEq β] (f : α → β) (l : List α)
    (hinj : ∀ a ∈ l, ∀ b ∈ l, f a = f b → a = b) :
    uniqueFirst (l.map f) = (uniqueFirst l).map f := by
  rw [uniqueFirst, uniqueFirst]
  have : ([] : List β) = ([] : List α).map f := rfl
  rw [this, uniqueFirstAux_map f l [] (by simpa using hinj)]

/-! ### createID (patient-ID pseudonymization) -/

theorem getVal_setVal_self (row : Row) (k : String) (v : Value) :
    getVal (setVal row k v) k = some v := assocGet_assocSet_self row k v

/-- `createID` of script.js: collects the distinct raw patient-key values in a
`Set`, then assigns consecutive integers from a random starting counter
through a plain object keyed by `String(pnr)`, and rewrites every row's
patient key through that object.  The random seed is passed explicitly.  The
`none` branch of the final lookup is unreachable because every key occurring
in the data was inserted into the mapping. -/
def createID (seed : ℤ) (data : List Row) (columns : List String) : Except String (List Row) :=
  match findColumnCaseInsensitive columns "pnr" with
  | none => .error "PNR column not found"
  | some pnrCol =>
    let pnrUniques := uniqueFirst (data.map (fun row => getVal row pnrCol))
    let pnrMapping :=
      (pnrUniques.foldl (fun st pnr => (assocSet st.1 (valueToKey pnr) st.2, st.2 + 1))
        (([] : List (String × ℤ)), seed)).1
    .ok (data.map (fun row =>
      match assocGet pnrMapping (valueToKey (getVal row pnrCol)) with
      | some newId => setVal row pnrCol (.vNum (newId : ℚ))
      | none => setVal row pnrCol .vNull))

/-- The association list the counter loop builds when all stringified keys
are distinct: each key paired with consecutive counter values. -/
def zipCounter : List (Option Value) → ℤ → List (String × ℤ)
  | [], _ => []
  | u :: t, c => (valueToKey u, c) :: zipCounter t (c + 1)

theorem createID_foldl_eq (us : List (Option Value)) :
    ∀ (acc : List (String × ℤ)) (c : ℤ),
      us.Pairwise (fun a b => valueToKey a ≠ valueToKey b) →
      (∀ u ∈ us, assocGet acc (valueToKey u) = none) →
      (us.foldl (fun st pnr => (assocSet st.1 (valueToKey pnr) st.2, st.2 + 1)) (acc, c)).1
        = acc ++ zipCounter us c := by
  induction us with
  | nil => intro acc c _ _; simp [zipCounter]
  | cons u t ih =>
    intro acc c hpw hfresh
    have hpw' := List.pairwise_cons.mp hpw
    have hstep : assocSet acc (valueToKey u) c = acc ++ [(valueToKey u, c)] :=
      assocSet_eq_append acc _ c (hfresh u (by simp))
    have hfresh' : ∀ v ∈ t, assocGet (acc ++ [(valueToKey u, c)]) (valueToKey v) = none := by
      intro v hv
      rw [assocGet_append]
      rw [hfresh v (by simp [hv])]
      simp [assocGet, hpw'.1 v hv]
    simp only [List.foldl_cons]
    rw [hstep] at *
    rw [ih (acc ++ [(valueToKey u, c)]) (c + 1) hpw'.2 hfresh']
    simp [zipCounter]



/-- Position of the first occurrence of `a` in a list (length if absent);
self-contained to keep a single decidable-equality instance in play. -/
def idxOf {α : Type} [DecidableEq α] (a : α) : List α → ℕ
  | [] => 0
  | x :: t => if x = a then 0 else idxOf a t + 1

theorem idxOf_cons_self {α : Type} [DecidableEq α] (a : α) (t : List α) :
    idxOf a (a :: t) = 0 := by simp [idxOf]

theorem idxOf_cons_ne {α : Type} [DecidableEq α] {a x : α} (t : List α) (h : x ≠ a) :
    idxOf a (x :: t) = idxOf a t + 1 := by simp [idxOf, h]

theorem idxOf_lt_length {α : Type} [DecidableEq α] {a : α} :
    ∀ {l : List α}, a ∈ l → idxOf a l < l.length := by
  intro l
  induction l with
  | nil => intro h; simp at h
  | cons x t ih =>
    intro h
    by_cases hx : x = a
    · simp [idxOf, hx]
    · rcases List.mem_cons.mp h with rfl | ht
      · exact absurd rfl hx
      · simpa [idxOf, hx] using ih ht

theorem getElem_idxOf {α : Type} [DecidableEq α] {a : α} :
    ∀ {l : List α}, a ∈ l → l[idxOf a l]? = some a := by
  intro l
  induction l with
  | nil => intro h; simp at h
  | cons x t ih =>
    intro h
    by_cases hx : x = a
    · simp [idxOf, hx]
    · rcases List.mem_cons.mp h with rfl | ht
      · exact absurd rfl hx
      · simp only [idxOf, if_neg hx, List.getElem?_cons_succ]
        exact ih ht

theorem idxOf_inj {α : Type} [DecidableEq α] {l : List α} {a b : α} (ha : a ∈ l) (hb : b ∈ l)
    (h : idxOf a l = idxOf b l) : a = b := by
  have h1 := getElem_idxOf ha
  have h2 := getElem_idxOf hb
  rw [h, h2] at h1
  injection h1 with h1
  exact h1.symm

theorem idxOf_getElem {α : Type} [DecidableEq α] :
    ∀ {l : List α}, l.Nodup → ∀ (i : ℕ) (h : i < l.length), idxOf l[i] l = i := by
  intro l
  induction l with
  | nil => intro _ i h; simp at h
  | cons x t ih =>
    intro hnd i h
    have hnd' := List.nodup_cons.mp hnd
    match i with
    | 0 => simp [idxOf]
    | i + 1 =>
      have hlt : i < t.length := by simpa using h
      have hti : t[i] ∈ t := List.getElem_mem _
      have hx : x ≠ t[i] := fun hxe => hnd'.1 (hxe ▸ hti)
      have heq : (x :: t)[i + 1] = t[i] := by simp
      rw [heq, idxOf_cons_ne t hx, ih hnd'.2 i hlt]

theorem zipCounter_lookup :
    ∀ (us : List (Option Value)) (c : ℤ) (u : Option Value),
      us.Pairwise (fun a b => valueToKey a ≠ valueToKey b) →
      u ∈ us →
      assocGet (zipCounter us c) (valueToKey u) = some (c + idxOf u us) := by
  intro us
  induction us with
  | nil => intro c u _ h; simp at h
  | cons x t ih =>
    intro c u hpw hu
    have hpw' := List.pairwise_cons.mp hpw
    rcases List.mem_cons.mp hu with rfl | hut
    · rw [idxOf_cons_self]
      simp [zipCounter, assocGet]
    · have hne : valueToKey x ≠ valueToKey u := hpw'.1 u hut
      have hxu : x ≠ u := fun h => hne (congrArg valueToKey h)
      rw [zipCounter, assocGet, if_neg hne, ih (c + 1) u hpw'.2 hut, idxOf_cons_ne t hxu]
      congr 1
      push_cast
      ring

/-- The stream of raw patient-key values of a table. -/
def pnrKeys (pnrCol : String) (data : List Row) : List (Option Value) :=
  data.map (fun row => getVal row pnrCol)

/-- The new identifier `createID` assigns to the raw key `k` (as a cell
value), when all stringified keys are distinct. -/
def newIdValue (seed : ℤ) (pnrCol : String) (data : List Row) (k : Option Value) : Option Value :=
  some (Value.vNum ((seed + idxOf k (uniqueFirst (pnrKeys pnrCol data)) : ℤ) : ℚ))

theorem createID_ok (seed : ℤ) (data : List Row) (columns : List String) (pnrCol : String)
    (hp : findColumnCaseInsensitive columns "pnr" = some pnrCol)
    (hinj : (uniqueFirst (pnrKeys pnrCol data)).Pairwise
      (fun a b => valueToKey a ≠ valueToKey b)) :
    createID seed data columns = .ok (data.map (fun row =>
      setVal row pnrCol (Value.vNum
        ((seed + idxOf (getVal row pnrCol) (uniqueFirst (pnrKeys pnrCol data)) : ℤ) : ℚ)))) := by
  have hpk : data.map (fun row => getVal row pnrCol) = pnrKeys pnrCol data := rfl
  simp only [createID, hp, hpk]
  have hmapping := createID_foldl_eq (uniqueFirst (pnrKeys pnrCol data)) [] seed hinj
    (fun u _ => rfl)
  rw [List.nil_append] at hmapping
  rw [hmapping]
  congr 1
  apply List.map_congr_left
  intro row hrow
  have hmem : getVal row pnrCol ∈ uniqueFirst (pnrKeys pnrCol data) := by
    rw [mem_uniqueFirst]
    exact List.mem_map.mpr ⟨row, hrow, rfl⟩
  rw [zipCounter_lookup _ seed (getVal row pnrCol) hinj hmem]

/-- C1 (amended): when the distinct raw patient keys also have pairwise
distinct string coercions, `createID` succeeds and is a bijection: every
row's key is rewritten to `seed + index of its key among the distinct keys`,
the distinct new identifiers are exactly the consecutive ascending run
`seed, seed + 1, ...` whose length equals the number of distinct original
keys, and distinct original keys receive distinct new identifiers.  (Without
the string-coercion hypothesis the bijection fails; see
`createID_mixed_key_collision`.) -/
theorem createID_bijection (seed : ℤ) (data : List Row) (columns : List String) (pnrCol : String)
    (hp : findColumnCaseInsensitive columns "pnr" = some pnrCol)
    (hinj : (uniqueFirst (pnrKeys pnrCol data)).Pairwise
      (fun a b => valueToKey a ≠ valueToKey b)) :
    ∃ out, createID seed data columns = .ok out ∧
      out.map (fun row => getVal row pnrCol) =
        data.map (fun row => newIdValue seed pnrCol data (getVal row pnrCol)) ∧
      uniqueFirst (out.map (fun row => getVal row pnrCol)) =
        (List.range (uniqueFirst (pnrKeys pnrCol data)).length).map
          (fun i : ℕ => some (Value.vNum ((seed + (i : ℤ) : ℤ) : ℚ))) ∧
      (uniqueFirst (out.map (fun row => getVal row pnrCol))).length =
        (uniqueFirst (pnrKeys pnrCol data)).length ∧
      (∀ k1 ∈ uniqueFirst (pnrKeys pnrCol data), ∀ k2 ∈ uniqueFirst (pnrKeys pnrCol data),
        k1 ≠ k2 → newIdValue seed pnrCol data k1 ≠ newIdValue seed pnrCol data k2) := by
  have hidx : ∀ k1 ∈ uniqueFirst (pnrKeys pnrCol data),
      ∀ k2 ∈ uniqueFirst (pnrKeys pnrCol data), k1 ≠ k2 →
      newIdValue seed pnrCol data k1 ≠ newIdValue seed pnrCol data k2 := by
    intro k1 h1 k2 h2 hne heq
    apply hne
    simp only [newIdValue, Option.some.injEq, Value.vNum.injEq] at heq
    have h3 : (seed + idxOf k1 (uniqueFirst (pnrKeys pnrCol data)) : ℤ) =
        (seed + idxOf k2 (uniqueFirst (pnrKeys pnrCol data)) : ℤ) := by
      exact_mod_cast heq
    exact idxOf_inj h1 h2 (by omega)
  have hkeys : (data.map (fun row => setVal row pnrCol (Value.vNum
      ((seed + idxOf (getVal row pnrCol) (uniqueFirst (pnrKeys pnrCol data)) : ℤ) : ℚ)))).map
        (fun row => getVal row pnrCol)
      = (pnrKeys pnrCol data).map (fun k => newIdValue seed pnrCol data k) := by
    rw [List.map_map]
    have hpk : (pnrKeys pnrCol data).map (fun k => newIdValue seed pnrCol data k)
        = data.map (fun row => newIdValue seed pnrCol data (getVal row pnrCol)) := by
      rw [pnrKeys, List.map_map]
      rfl
    rw [hpk]
    apply List.map_congr_left
    intro row _
    simp only [Function.comp_apply, newIdValue]
    rw [getVal_setVal_self]
  have hinj' : ∀ a ∈ pnrKeys pnrCol data, ∀ b ∈ pnrKeys pnrCol data,
      newIdValue seed pnrCol data a = newIdValue seed pnrCol data b → a = b := by
    intro a ha b hb hab
    by_contra hne
    exact hidx a ((mem_uniqueFirst a _).mpr ha) b ((mem_uniqueFirst b _).mpr hb) hne hab
  have hrange : (uniqueFirst (pnrKeys pnrCol data)).map
      (fun k => newIdValue seed pnrCol data k) =
      (List.range (uniqueFirst (pnrKeys pnrCol data)).length).map
        (fun i : ℕ => some (Value.vNum ((seed + (i : ℤ) : ℤ) : ℚ))) := by
    apply List.ext_getElem
    · rw [List.length_map, List.length_map, List.length_range]
    · intro i h1 h2
      rw [List.getElem_map, List.getElem_map, List.getElem_range]
      simp only [newIdValue]
      rw [idxOf_getElem (nodup_uniqueFirst _) i (by simpa using h1)]
  refine ⟨_, createID_ok seed data columns pnrCol hp hinj, ?_, ?_, ?_, hidx⟩
  · rw [hkeys, pnrKeys, List.map_map]
    rfl
  · rw [hkeys, uniqueFirst_map _ (pnrKeys pnrCol data) hinj', hrange]
  · rw [hkeys, uniqueFirst_map _ (pnrKeys pnrCol data) hinj', hrange,
      List.length_map, List.length_range]

/-- C1 witness: a concrete two-patient table satisfying the hypotheses of
`createID_bijection`, with the conclusion instantiated there. -/
theorem createID_bijection_witness :
    findColumnCaseInsensitive ["PNR"] "pnr" = some "PNR" ∧
    (uniqueFirst (pnrKeys "PNR" [[("PNR", Value.vStr "a")], [("PNR", Value.vStr "b")]])).Pairwise
      (fun a b => valueToKey a ≠ valueToKey b) ∧
    ∃ out, createID 100 [[("PNR", Value.vStr "a")], [("PNR", Value.vStr "b")]] ["PNR"] =
        .ok out ∧
      out.map (fun row => getVal row "PNR") =
        [[("PNR", Value.vStr "a")], [("PNR", Value.vStr "b")]].map (fun row =>
          newIdValue 100 "PNR" [[("PNR", Value.vStr "a")], [("PNR", Value.vStr "b")]]
            (getVal row "PNR")) := by
  refine ⟨by decide, by decide, ?_⟩
  obtain ⟨out, h1, h2, -⟩ :=
    createID_bijection 100 [[("PNR", Value.vStr "a")], [("PNR", Value.vStr "b")]] ["PNR"] "PNR"
      (by decide) (by decide)
  exact ⟨out, h1, h2⟩

/-- C1 counterexample: a table whose patient-key column mixes the number `8`
and the string `"8"` — two distinct raw values.  The mapping object coerces
both to the string key `"8"`, so the second counter value overwrites the
first and both patients receive the same new identifier 1000001: the
distinct new identifiers number 1 while the distinct original keys number 2,
and the run does not start at the seed 1000000. -/
theorem createID_mixed_key_collision :
    createID 1000000 [[("PNR", Value.vNum 8)], [("PNR", Value.vStr "8")]] ["PNR"] =
      .ok [[("PNR", Value.vNum 1000001)], [("PNR", Value.vNum 1000001)]] ∧
    (uniqueFirst (pnrKeys "PNR" [[("PNR", Value.vNum 8)], [("PNR", Value.vStr "8")]])).length
      = 2 ∧
    (uniqueFirst (pnrKeys "PNR"
      [[("PNR", Value.vNum 1000001)], [("PNR", Value.vNum 1000001)]])).length = 1 := by
  refine ⟨?_, by decide, by decide⟩
  decide

/-! ### filterByVmax (threshold filter) -/

/-- The ordered spelling variants script.js tries for the velocity column
(a double space, spaced units).  The third entry carries a
`non-breaking space` comment in the source, but its literal is an
ordinary ASCII space, byte-identical to the first entry (a dead
duplicate); it is transcribed here with the ordinary space. -/
def vmaxVariations : List String :=
  ["Vmax (m/s)", "Vmax(m/s)", "Vmax (m/s)", "Vmax", "vmax (m/s)", "vmax",
   "V max (m/s)", "V max", "Vmax(m / s)", "Vmax (m / s)", "Vmax  (m/s)", "Vmax ( m/s )"]

/-- The per-row qualification test of `filterByVmax`:
`!isNaN(parseFloat(row[vmaxCol])) && parseFloat(row[vmaxCol]) >= threshold`. -/
def rowVmaxQual (th : ℚ) (vmaxCol : String) (row : Row) : Bool :=
  match jsParseFloatOpt (getVal row vmaxCol) with
  | some v => decide (th ≤ v)
  | none => false

/-- `filterByVmax` of script.js: resolves the velocity column through the
variant list (first hit wins), collects the set of patient keys having some
row at or above the threshold, and keeps every row of those patients.  The
threshold constant `VMAX_THRESHOLD` is defined outside the repository's
source files and is passed as a parameter. -/
def filterByVmax (th : ℚ) (data : List Row) (columns : List String) :
    Except String (List Row) :=
  match vmaxVariations.findSome? (fun variant => findColumnCaseInsensitive columns variant) with
  | none => .error "Vmax (m/s) column not found"
  | some vmaxCol =>
    match findColumnCaseInsensitive columns "pnr" with
    | none => .error "PNR column not found (needed for Vmax filtering)"
    | some pnrCol =>
      let pnrsWithVmax :=
        uniqueFirst ((data.filter (rowVmaxQual th vmaxCol)).map (fun row => getVal row pnrCol))
      if pnrsWithVmax.isEmpty then
        .error "No patients with Vmax at or above the threshold found"
      else
        let filtered := data.filter (fun row => decide (getVal row pnrCol ∈ pnrsWithVmax))
        if filtered.isEmpty then
          .error "No rows found for patients meeting the Vmax threshold"
        else .ok filtered

/-- `filterByVmax` of part_002: a row-level filter keeping only the rows
whose own velocity is strictly above the threshold (no patient grouping). -/
def filterByVmax_part002 (th : ℚ) (data : List Row) (columns : List String) :
    Except String (List Row) :=
  match findColumnNoTrim columns "Vmax (m/s)" with
  | none => .error "Vmax (m/s) column not found"
  | some vmaxCol =>
    let filtered := data.filter (fun row =>
      match jsParseFloatOpt (getVal row vmaxCol) with
      | some v => decide (th < v)
      | none => false)
    if filtered.isEmpty then .error "No rows with Vmax above the threshold"
    else .ok filtered

/-- C2 (amended, script.js variant): when the velocity and patient columns
resolve and at least one row qualifies (velocity numerically coerced and at
or above the threshold), `filterByVmax` returns exactly the rows whose
patient has some qualifying row: all rows of qualifying patients are kept —
including rows below the threshold or non-numeric — and all rows of
non-qualifying patients are removed.  (The part_002 variant filters
row-by-row with a strict inequality instead; see
`filterByVmax_rowlevel_cex`.) -/
theorem filterByVmax_patient_aware (th : ℚ) (data : List Row) (columns : List String)
    (vmaxCol pnrCol : String)
    (hv : vmaxVariations.findSome? (fun variant => findColumnCaseInsensitive columns variant)
      = some vmaxCol)
    (hp : findColumnCaseInsensitive columns "pnr" = some pnrCol)
    (hq : ∃ r ∈ data, rowVmaxQual th vmaxCol r = true) :
    filterByVmax th data columns =
      .ok (data.filter (fun row => decide (∃ r ∈ data, rowVmaxQual th vmaxCol r = true ∧
        getVal r pnrCol = getVal row pnrCol))) ∧
    (∀ row ∈ data, (∃ r ∈ data, rowVmaxQual th vmaxCol r = true ∧
        getVal r pnrCol = getVal row pnrCol) →
      ∀ out, filterByVmax th data columns = .ok out → row ∈ out) ∧
    (∀ row ∈ data, ¬ (∃ r ∈ data, rowVmaxQual th vmaxCol r = true ∧
        getVal r pnrCol = getVal row pnrCol) →
      ∀ out, filterByVmax th data columns = .ok out → row ∉ out) := by
  obtain ⟨r0, hr0, hr0q⟩ := hq
  have hmemS : ∀ row : Row, getVal row pnrCol ∈
      uniqueFirst ((data.filter (rowVmaxQual th vmaxCol)).map (fun r => getVal r pnrCol)) ↔
      ∃ r ∈ data, rowVmaxQual th vmaxCol r = true ∧ getVal r pnrCol = getVal row pnrCol := by
    intro row
    rw [mem_uniqueFirst, List.mem_map]
    constructor
    · rintro ⟨r, hrf, hrk⟩
      have := List.mem_filter.mp hrf
      exact ⟨r, this.1, this.2, hrk⟩
    · rintro ⟨r, hr, hrq, hrk⟩
      exact ⟨r, List.mem_filter.mpr ⟨hr, hrq⟩, hrk⟩
  have hS0 : getVal r0 pnrCol ∈
      uniqueFirst ((data.filter (rowVmaxQual th vmaxCol)).map (fun r => getVal r pnrCol)) :=
    (hmemS r0).mpr ⟨r0, hr0, hr0q, rfl⟩
  have hSne : (uniqueFirst ((data.filter (rowVmaxQual th vmaxCol)).map
      (fun r => getVal r pnrCol))).isEmpty = false := by
    have hne := List.ne_nil_of_mem hS0
    simpa [List.isEmpty_iff] using hne
  have hr0fil : r0 ∈ data.filter (fun row => decide (getVal row pnrCol ∈
      uniqueFirst ((data.filter (rowVmaxQual th vmaxCol)).map (fun r => getVal r pnrCol)))) :=
    List.mem_filter.mpr ⟨hr0, decide_eq_true ((hmemS r0).mpr ⟨r0, hr0, hr0q, rfl⟩)⟩
  have hFne : (data.filter (fun row => decide (getVal row pnrCol ∈
      uniqueFirst ((data.filter (rowVmaxQual th vmaxCol)).map
        (fun r => getVal r pnrCol))))).isEmpty = false := by
    have hne := List.ne_nil_of_mem hr0fil
    simpa [List.isEmpty_iff] using hne
  have hfil_eq : data.filter (fun row => decide (getVal row pnrCol ∈
      uniqueFirst ((data.filter (rowVmaxQual th vmaxCol)).map (fun r => getVal r pnrCol))))
      = data.filter (fun row => decide (∃ r ∈ data, rowVmaxQual th vmaxCol r = true ∧
        getVal r pnrCol = getVal row pnrCol)) := by
    apply List.filter_congr
    intro row _
    exact decide_eq_decide.mpr (hmemS row)
  have hmain : filterByVmax th data columns =
      .ok (data.filter (fun row => decide (∃ r ∈ data, rowVmaxQual th vmaxCol r = true ∧
        getVal r pnrCol = getVal row pnrCol))) := by
    simp only [filterByVmax, hv, hp, hSne, hFne]
    rw [← hfil_eq]
    simp [hSne, hFne]
  refine ⟨hmain, ?_, ?_⟩
  · intro row hrow hex out hout
    rw [hmain] at hout
    have : out = data.filter (fun row => decide (∃ r ∈ data,
        rowVmaxQual th vmaxCol r = true ∧ getVal r pnrCol = getVal row pnrCol)) := by
      injection hout.symm
    rw [this]
    exact List.mem_filter.mpr ⟨hrow, decide_eq_true hex⟩
  · intro row hrow hex out hout
    rw [hmain] at hout
    have : out = data.filter (fun row => decide (∃ r ∈ data,
        rowVmaxQual th vmaxCol r = true ∧ getVal r pnrCol = getVal row pnrCol)) := by
      injection hout.symm
    rw [this]
    intro hmem
    exact hex (of_decide_eq_true (List.mem_filter.mp hmem).2)

/-- C2 witness: a concrete table (patient 1 with velocities 5 and 3, patient
2 with velocity 3, threshold 4) satisfying the hypotheses of
`filterByVmax_patient_aware`, with the conclusion instantiated there. -/
theorem filterByVmax_patient_aware_witness :
    vmaxVariations.findSome?
      (fun variant => findColumnCaseInsensitive ["PNR", "Vmax (m/s)"] variant)
      = some "Vmax (m/s)" ∧
    findColumnCaseInsensitive ["PNR", "Vmax (m/s)"] "pnr" = some "PNR" ∧
    (∃ r ∈ [[("PNR", Value.vNum 1), ("Vmax (m/s)", Value.vNum 5)],
      [("PNR", Value.vNum 1), ("Vmax (m/s)", Value.vNum 3)],
      [("PNR", Value.vNum 2), ("Vmax (m/s)", Value.vNum 3)]],
      rowVmaxQual 4 "Vmax (m/s)" r = true) ∧
    filterByVmax 4 [[("PNR", Value.vNum 1), ("Vmax (m/s)", Value.vNum 5)],
      [("PNR", Value.vNum 1), ("Vmax (m/s)", Value.vNum 3)],
      [("PNR", Value.vNum 2), ("Vmax (m/s)", Value.vNum 3)]] ["PNR", "Vmax (m/s)"] =
      .ok ([[("PNR", Value.vNum 1), ("Vmax (m/s)", Value.vNum 5)],
        [("PNR", Value.vNum 1), ("Vmax (m/s)", Value.vNum 3)],
        [("PNR", Value.vNum 2), ("Vmax (m/s)", Value.vNum 3)]].filter
        (fun row => decide (∃ r ∈ [[("PNR", Value.vNum 1), ("Vmax (m/s)", Value.vNum 5)],
          [("PNR", Value.vNum 1), ("Vmax (m/s)", Value.vNum 3)],
          [("PNR", Value.vNum 2), ("Vmax (m/s)", Value.vNum 3)]],
          rowVmaxQual 4 "Vmax (m/s)" r = true ∧
          getVal r "PNR" = getVal row "PNR"))) := by
  refine ⟨by decide, by decide, by decide, ?_⟩
  exact (filterByVmax_patient_aware 4 _ ["PNR", "Vmax (m/s)"] "Vmax (m/s)" "PNR"
    (by decide) (by decide) (by decide)).1

/-- C2 counterexample: the part_002 variant of the threshold filter is not
patient-aware.  Patient 1 qualifies (one row's velocity 5 is at or above the
threshold 4), so the claim requires both of that patient's rows in the
output; the part_002 filter keeps only the row strictly above the threshold
and drops the patient's velocity-3 row.  It also drops a row whose velocity
equals the threshold exactly, which under the claim's `>=` test would make
its patient qualify. -/
theorem filterByVmax_rowlevel_cex :
    filterByVmax_part002 4 [[("PNR", Value.vNum 1), ("Vmax (m/s)", Value.vNum 5)],
      [("PNR", Value.vNum 1), ("Vmax (m/s)", Value.vNum 3)]] ["PNR", "Vmax (m/s)"] =
      .ok [[("PNR", Value.vNum 1), ("Vmax (m/s)", Value.vNum 5)]] ∧
    rowVmaxQual 4 "Vmax (m/s)" [("PNR", Value.vNum 1), ("Vmax (m/s)", Value.vNum 5)] = true ∧
    ([("PNR", Value.vNum 1), ("Vmax (m/s)", Value.vNum 3)] ∈
      [[("PNR", Value.vNum 1), ("Vmax (m/s)", Value.vNum 5)]]) = False ∧
    filterByVmax_part002 4 [[("PNR", Value.vNum 1), ("Vmax (m/s)", Value.vNum 4)]]
      ["PNR", "Vmax (m/s)"] = .error "No rows with Vmax above the threshold" ∧
    rowVmaxQual 4 "Vmax (m/s)" [("PNR", Value.vNum 1), ("Vmax (m/s)", Value.vNum 4)] = true := by
  refine ⟨by decide, by decide, by simp, by decide, by decide⟩

/-! ### Date parsing and temporal anonymization -/

/-- Days from 1970-01-01 to the Gregorian date `(y, m, d)` with `1 ≤ m ≤ 12`
(day-of-month overflow and underflow in `d` shift linearly, exactly as the
JavaScript `Date` constructor normalizes them). -/
def daysFromCivil (y : ℤ) (m : ℤ) (d : ℤ) : ℤ :=
  let y' := if m ≤ 2 then y - 1 else y
  let era := y'.fdiv 400
  let yoe := y' - era * 400
  let mp := if 2 < m then m - 3 else m + 9
  let doy := (153 * mp + 2).fdiv 5 + d - 1
  let doe := yoe * 365 + yoe.fdiv 4 - yoe.fdiv 100 + doy
  era * 146097 + doe - 719468

/-- `new Date(y, m0, d).setHours(0,0,0,0)` as a day number since 1970-01-01:
`m0` is the 0-based month with arbitrary overflow (normalized by year carry),
and a year in 0..99 is read as 1900+y (the JavaScript two-digit-year rule of
the `Date(year, month, day)` constructor).  Time zones are not modelled: the
embedding works in a fixed UTC-like zone, so local midnight is exact. -/
def jsDateDays (y : ℤ) (m0 : ℤ) (d : ℤ) : ℤ :=
  let y1 := if 0 ≤ y ∧ y ≤ 99 then 1900 + y else y
  let y2 := y1 + m0.fdiv 12
  let m := m0 % 12 + 1
  daysFromCivil y2 m d

/-- `new Date(1899, 11, 30)` — the spreadsheet serial epoch — as a day
number since 1970-01-01 (equals -25569). -/
def excelEpochDays : ℤ := jsDateDays 1899 11 30

/-- `new Date(1899, 11, 30).getTime()` in milliseconds. -/
def epochMs : ℤ := excelEpochDays * 86400000

/-- The final step shared by every branch of the source's `parseDate`: build
`new Date(epoch + serial*86400000)`, fail when the timestamp leaves the
representable range ±8.64e15 ms (then `getTime()` is `NaN`), and floor to
midnight via `setHours(0,0,0,0)`.  Returns the day number since 1970. -/
def serialFinish (serial : ℚ) : Except String ℤ :=
  let ms : ℚ := qAdd (epochMs : ℚ) (qMul serial 86400000)
  if ms < -8640000000000000 ∨ 8640000000000000 < ms then
    .error "Failed to convert to date"
  else .ok ⌊qDiv ms 86400000⌋

/-- `parseDate` of script.js `anonymizeDates`: empty values fail; numbers are
spreadsheet day-serials; strings are stripped to digits and classified by
length — 8 = YYYYMMDD, 9 = century-prefixed national identifier (9th digit
ignored), 6 = YYMMDD with windowed century, 5 or 7 = serial-as-string only
inside the plausible range (1000, 100000) exclusive; anything else fails. -/
def parseDate : Value → Except String ℤ
  | .vNull => .error "Empty date value encountered"
  | .vNum q => serialFinish q
  | .vStr s =>
    if s = "" then .error "Empty date value encountered"
    else
      let cleaned := s.data.filter Char.isDigit
      if cleaned.length = 8 then
        let year : ℤ := (digitsToNat (cleaned.take 4) : ℤ)
        let month : ℤ := (digitsToNat ((cleaned.drop 4).take 2) : ℤ) - 1
        let day : ℤ := (digitsToNat ((cleaned.drop 6).take 2) : ℤ)
        serialFinish ((jsDateDays year month day - excelEpochDays : ℤ) : ℚ)
      else if cleaned.length = 9 then
        let century : ℤ := (digitsToNat (cleaned.take 2) : ℤ)
        let yy : ℤ := (digitsToNat ((cleaned.drop 2).take 2) : ℤ)
        let mm : ℤ := (digitsToNat ((cleaned.drop 4).take 2) : ℤ) - 1
        let dd : ℤ := (digitsToNat ((cleaned.drop 6).take 2) : ℤ)
        serialFinish ((jsDateDays (century * 100 + yy) mm dd - excelEpochDays : ℤ) : ℚ)
      else if cleaned.length = 6 then
        let yy : ℤ := (digitsToNat (cleaned.take 2) : ℤ)
        let mm : ℤ := (digitsToNat ((cleaned.drop 2).take 2) : ℤ) - 1
        let dd : ℤ := (digitsToNat ((cleaned.drop 4).take 2) : ℤ)
        let year : ℤ := if yy < 50 then 2000 + yy else 1900 + yy
        serialFinish ((jsDateDays year mm dd - excelEpochDays : ℤ) : ℚ)
      else if 5 ≤ cleaned.length ∧ cleaned.length ≤ 7 then
        let asNumber : ℚ := (digitsToNat cleaned : ℚ)
        if 1000 < asNumber ∧ asNumber < 100000 then serialFinish asNumber
        else .error "Ambiguous date format after cleaning"
      else .error "Cannot parse date"

/-- `parseDate(row[dateCol])` where the property may be absent: `undefined`
is caught by the same `== null` emptiness check as `null`. -/
def parseDateOpt : Option Value → Except String ℤ
  | none => .error "Empty date value encountered"
  | some v => parseDate v

/-- Per-patient grouping of `(index, row)` pairs by the stringified patient
key, in first-occurrence order — the contents of the `patientVisits` object
(`Object.values` of a plain object populated in data order).  The fuel is
the list length; the partition step consumes at least one element. -/
def groupPairsFuel (key : Row → String) : ℕ → List (ℕ × Row) → List (List (ℕ × Row))
  | 0, _ => []
  | _ + 1, [] => []
  | fuel + 1, p :: t =>
    (p :: t.filter (fun q => key q.2 == key p.2)) ::
      groupPairsFuel key fuel (t.filter (fun q => !(key q.2 == key p.2)))

def groupPairs (key : Row → String) (l : List (ℕ × Row)) : List (List (ℕ × Row)) :=
  groupPairsFuel key l.length l

/-- The ascending-date comparator `(a, b) => dateA - dateB` on parsed
`(index, day)` pairs. -/
def visitLE (a b : ℕ × ℤ) : Prop := a.2 ≤ b.2

instance : DecidableRel visitLE := fun a b => inferInstanceAs (Decidable (a.2 ≤ b.2))

instance : IsTotal (ℕ × ℤ) visitLE := ⟨fun a b => le_total a.2 b.2⟩

instance : IsTrans (ℕ × ℤ) visitLE := ⟨fun _ _ _ => le_trans⟩

/-- Processing of one patient group in script.js `anonymizeDates`: parse all
the group's dates (the sort comparator parses each row, so one failure aborts
the stage), sort ascending by parsed date, take the earliest as `firstDate`,
and emit the day difference for each original row index.  The sort algorithm
itself is unobservable in the output because values are written back at
original indices; any comparison sort yields the same result. -/
def processGroup (dateCol : String) (visits : List (ℕ × Row)) : Except String (List (ℕ × ℤ)) := do
  let parsed ← visits.mapM (fun p => (parseDateOpt (getVal p.2 dateCol)).map (fun d => (p.1, d)))
  match List.insertionSort visitLE parsed with
  | [] => pure []
  | first :: rest => pure ((first :: rest).map (fun p => (p.1, p.2 - first.2)))

/-- In-place update of one position of a list. -/
def listModify {α : Type} : List α → ℕ → (α → α) → List α
  | [], _, _ => []
  | x :: t, 0, f => f x :: t
  | x :: t, n + 1, f => x :: listModify t n f

/-- `data[visit.idx][dateCol] = daysDiff` for every computed write: the
rewritten date values land at the rows' original indices. -/
def applyWrites (dateCol : String) (writes : List (ℕ × ℤ)) (data : List Row) : List Row :=
  writes.foldl (fun d w => listModify d w.1
    (fun row => setVal row dateCol (Value.vNum ((w.2 : ℤ) : ℚ)))) data

/-- `anonymizeDates` of script.js: resolve the patient and `Datum` columns,
group rows per patient (with original indices), and per group sort by parsed
date and rewrite each date cell to the whole-day difference from the
group's earliest date. -/
def anonymizeDates (data : List Row) (columns : List String) : Except String (List Row) :=
  match findColumnCaseInsensitive columns "pnr", findColumnCaseInsensitive columns "Datum" with
  | some pnrCol, some dateCol => do
    let groups := groupPairs (fun row => valueToKey (getVal row pnrCol)) data.enum
    let writes ← groups.mapM (processGroup dateCol)
    pure (applyWrites dateCol writes.flatten data)
  | _, _ => .error "PNR or date column not found"

example : parseDate (.vStr "20230115") = .ok 19372 := by decide
example : parseDate (.vStr "150123") = .ok 16458 := by decide
example : parseDate (.vStr "230115") = .ok 19372 := by decide
example : parseDate (.vNum 0) = .ok (-25569) := by decide
example : parseDate (.vStr "12345") = .ok (12345 - 25569) := by decide
example : parseDate (.vStr "00050") = .error "Ambiguous date format after cleaning" := by decide
example : parseDate (.vStr "") = .error "Empty date value encountered" := by decide
example : excelEpochDays = -25569 := by decide

/-- Sort key of the part_000 `anonymizeDates` comparator `new Date(value)`:
a numeric cell is interpreted as milliseconds since 1970.  Only numeric date
cells are modelled (the legacy comparator's string parsing is a different
code path never exercised by the claims). -/
def msKey_part000 (dateCol : String) (p : ℕ × Row) : ℚ :=
  match getVal p.2 dateCol with
  | some (.vNum q) => q
  | _ => 0

/-- The ascending comparator on `(index, ms)` pairs. -/
def visitLEQ (a b : ℕ × ℚ) : Prop := a.2 ≤ b.2

instance : DecidableRel visitLEQ := fun a b => inferInstanceAs (Decidable (a.2 ≤ b.2))

/-- One patient group under part_000 `anonymizeDates`: sort by date and
assign ordinal visit numbers 0, 1, 2, ... rather than day differences. -/
def processGroup_part000 (dateCol : String) (visits : List (ℕ × Row)) : List (ℕ × ℤ) :=
  let keyed := visits.map (fun p => (p.1, msKey_part000 dateCol p))
  let sorted := List.insertionSort visitLEQ keyed
  sorted.enum.map (fun q => (q.2.1, (q.1 : ℤ)))

/-- `anonymizeDates` of part_000: same grouping and write-back, but each
row's date cell becomes the row's ordinal position in the patient's
date-sorted visit list. -/
def anonymizeDates_part000 (data : List Row) (columns : List String) :
    Except String (List Row) :=
  match findColumnNoTrim columns "pnr", findColumnNoTrim columns "Datum" with
  | some pnrCol, some dateCol =>
    let groups := groupPairs (fun row => valueToKey (getVal row pnrCol)) data.enum
    .ok (applyWrites dateCol (groups.map (processGroup_part000 dateCol)).flatten data)
  | _, _ => .error "PNR or date column not found"

example : anonymizeDates
    [[("PNR", Value.vNum 1), ("Datum", Value.vNum 0)],
     [("PNR", Value.vNum 1), ("Datum", Value.vNum 5)]] ["PNR", "Datum"] =
    .ok [[("PNR", Value.vNum 1), ("Datum", Value.vNum 0)],
     [("PNR", Value.vNum 1), ("Datum", Value.vNum 5)]] := by decide
example : anonymizeDates_part000
    [[("PNR", Value.vNum 1), ("Datum", Value.vNum 0)],
     [("PNR", Value.vNum 1), ("Datum", Value.vNum 5)]] ["PNR", "Datum"] =
    .ok [[("PNR", Value.vNum 1), ("Datum", Value.vNum 0)],
     [("PNR", Value.vNum 1), ("Datum", Value.vNum 1)]] := by decide

theorem groupPairsFuel_flatten_perm (key : Row → String) :
    ∀ (fuel : ℕ) (l : List (ℕ × Row)), l.length ≤ fuel →
      (groupPairsFuel key fuel l).flatten.Perm l := by
  intro fuel
  induction fuel with
  | zero =>
    intro l hl
    have : l = [] := List.eq_nil_of_length_eq_zero (Nat.le_zero.mp hl)
    subst this
    simp [groupPairsFuel]
  | succ fuel ih =>
    intro l hl
    match l with
    | [] => simp [groupPairsFuel]
    | p :: t =>
      rw [groupPairsFuel, List.flatten_cons, List.cons_append]
      have hlen : (t.filter (fun q => !(key q.2 == key p.2))).length ≤ fuel := by
        have h1 := List.length_filter_le (fun q => !(key q.2 == key p.2)) t
        have h2 : t.length + 1 ≤ fuel + 1 := by simpa using hl
        omega
      have hperm := ih _ hlen
      exact List.Perm.cons p ((List.Perm.append_left _ hperm).trans
        (List.filter_append_perm _ t))

theorem groupPairs_flatten_perm (key : Row → String) (l : List (ℕ × Row)) :
    (groupPairs key l).flatten.Perm l :=
  groupPairsFuel_flatten_perm key l.length l le_rfl

theorem mapM_ok_forall₂ {α β : Type} (f : α → Except String β) :
    ∀ (l : List α) (out : List β), l.mapM f = .ok out →
      List.Forall₂ (fun a b => f a = .ok b) l out := by
  intro l
  induction l with
  | nil =>
    intro out h
    simp only [List.mapM_nil] at h
    cases h
    exact List.Forall₂.nil
  | cons a t ih =>
    intro out h
    rw [List.mapM_cons] at h
    cases hfa : f a with
    | error e =>
      rw [hfa] at h
      simp [Bind.bind, Except.bind] at h
    | ok b =>
      rw [hfa] at h
      cases hmt : t.mapM f with
      | error e =>
        rw [hmt] at h
        simp [Bind.bind, Except.bind] at h
      | ok bs =>
        rw [hmt] at h
        simp only [Bind.bind, Except.bind, pure, Except.pure] at h
        cases h
        exact List.Forall₂.cons hfa (ih bs hmt)

theorem forall₂_mem_left {α β : Type} {R : α → β → Prop} :
    ∀ {l1 : List α} {l2 : List β}, List.Forall₂ R l1 l2 → ∀ a ∈ l1, ∃ b ∈ l2, R a b := by
  intro l1 l2 h
  induction h with
  | nil => intro a ha; simp at ha
  | cons hab _ ih =>
    intro x hx
    rcases List.mem_cons.mp hx with rfl | hxs
    · exact ⟨_, by simp, hab⟩
    · obtain ⟨b, hb, hRb⟩ := ih x hxs
      exact ⟨b, by simp [hb], hRb⟩

theorem forall₂_map_eq {α β γ : Type} {R : α → β → Prop} (f : α → γ) (g : β → γ)
    (hfg : ∀ a b, R a b → f a = g b) :
    ∀ {l1 : List α} {l2 : List β}, List.Forall₂ R l1 l2 → l1.map f = l2.map g := by
  intro l1 l2 h
  induction h with
  | nil => rfl
  | cons hab _ ih => simp [List.map_cons, hfg _ _ hab, ih]

theorem forall₂_flatten_perm {α : Type} :
    ∀ {L1 L2 : List (List α)}, List.Forall₂ (fun a b => a.Perm b) L1 L2 →
      L1.flatten.Perm L2.flatten := by
  intro L1 L2 h
  induction h with
  | nil => rfl
  | cons hab _ ih =>
    rw [List.flatten_cons, List.flatten_cons]
    exact List.Perm.append hab ih

theorem mapM_error_of_mem {α β : Type} {f : α → Except String β} {l : List α} {a : α}
    (ha : a ∈ l) (hfa : ∀ b, f a ≠ .ok b) : ∀ out, l.mapM f ≠ .ok out := by
  intro out h
  obtain ⟨b, _, hb⟩ := forall₂_mem_left (mapM_ok_forall₂ f l out h) a ha
  exact hfa b hb

theorem sorted_head_min (l : List (ℕ × ℤ)) (first : ℕ × ℤ) (rest : List (ℕ × ℤ))
    (h : List.insertionSort visitLE l = first :: rest) :
    first ∈ l ∧ ∀ p ∈ l, first.2 ≤ p.2 := by
  have hperm := List.perm_insertionSort visitLE l
  have hsorted := List.sorted_insertionSort visitLE l
  rw [h] at hperm hsorted
  refine ⟨hperm.subset (by simp), ?_⟩
  intro p hp
  have hmem : p ∈ first :: rest := (hperm.mem_iff).mpr hp
  rcases List.mem_cons.mp hmem with rfl | hm
  · exact le_refl _
  · exact List.rel_of_sorted_cons hsorted p hm

theorem processGroup_spec (dateCol : String) (visits : List (ℕ × Row))
    (parsed : List (ℕ × ℤ))
    (hp : visits.mapM (fun p => (parseDateOpt (getVal p.2 dateCol)).map (fun d => (p.1, d)))
      = .ok parsed) :
    (parsed = [] ∧ processGroup dateCol visits = .ok []) ∨
    ∃ ws m, processGroup dateCol visits = .ok ws ∧
      ws.Perm (parsed.map (fun p => (p.1, p.2 - m))) ∧
      (∃ p ∈ parsed, p.2 = m) ∧ (∀ p ∈ parsed, m ≤ p.2) := by
  have hpg : processGroup dateCol visits =
      (match List.insertionSort visitLE parsed with
       | [] => pure []
       | first :: rest => pure ((first :: rest).map (fun p => (p.1, p.2 - first.2)))) := by
    rw [processGroup, hp]
    rfl
  cases hsort : List.insertionSort visitLE parsed with
  | nil =>
    left
    have hnil : parsed = [] := by
      have hperm := List.perm_insertionSort visitLE parsed
      rw [hsort] at hperm
      exact List.Perm.eq_nil hperm.symm
    refine ⟨hnil, ?_⟩
    rw [hpg, hsort]
    rfl
  | cons first rest =>
    right
    obtain ⟨hfst, hmin⟩ := sorted_head_min parsed first rest hsort
    refine ⟨(first :: rest).map (fun p => (p.1, p.2 - first.2)), first.2, ?_, ?_, ?_, hmin⟩
    · rw [hpg, hsort]
      rfl
    · have hperm := List.perm_insertionSort visitLE parsed
      rw [hsort] at hperm
      exact hperm.map _
    · exact ⟨first, hfst, rfl⟩

theorem listModify_length {α : Type} :
    ∀ (l : List α) (i : ℕ) (f : α → α), (listModify l i f).length = l.length := by
  intro l
  induction l with
  | nil => intro i f; rfl
  | cons x t ih =>
    intro i f
    match i with
    | 0 => rfl
    | n + 1 => simp [listModify, ih]

theorem listModify_getElem? {α : Type} :
    ∀ (l : List α) (i j : ℕ) (f : α → α),
      (listModify l i f)[j]? = if i = j then (l[j]?).map f else l[j]? := by
  intro l
  induction l with
  | nil => intro i j f; simp [listModify]
  | cons x t ih =>
    intro i j f
    match i, j with
    | 0, 0 => simp [listModify]
    | 0, n + 1 => simp [listModify]
    | m + 1, 0 => simp [listModify]
    | m + 1, n + 1 =>
      simp only [listModify, List.getElem?_cons_succ]
      rw [ih m n f]
      by_cases h : m = n <;> simp [h]

theorem applyWrites_length (dateCol : String) :
    ∀ (ws : List (ℕ × ℤ)) (data : List Row),
      (applyWrites dateCol ws data).length = data.length := by
  intro ws
  induction ws with
  | nil => intro data; rfl
  | cons w t ih =>
    intro data
    rw [applyWrites, List.foldl_cons]
    have := ih (listModify data w.1
      (fun row => setVal row dateCol (Value.vNum ((w.2 : ℤ) : ℚ))))
    rw [applyWrites] at this
    rw [this, listModify_length]

theorem applyWrites_getElem?_not_mem (dateCol : String) :
    ∀ (ws : List (ℕ × ℤ)) (data : List Row) (j : ℕ),
      (∀ w ∈ ws, w.1 ≠ j) → (applyWrites dateCol ws data)[j]? = data[j]? := by
  intro ws
  induction ws with
  | nil => intro data j _; rfl
  | cons w t ih =>
    intro data j hj
    rw [applyWrites, List.foldl_cons]
    have h1 : (applyWrites dateCol t (listModify data w.1
        (fun row => setVal row dateCol (Value.vNum ((w.2 : ℤ) : ℚ)))))[j]?
        = (listModify data w.1
          (fun row => setVal row dateCol (Value.vNum ((w.2 : ℤ) : ℚ))))[j]? :=
      ih _ j (fun v hv => hj v (by simp [hv]))
    rw [applyWrites] at h1
    rw [h1, listModify_getElem?, if_neg (hj w (by simp))]

theorem applyWrites_getElem?_mem (dateCol : String) :
    ∀ (ws : List (ℕ × ℤ)) (data : List Row) (j : ℕ) (d : ℤ),
      (ws.map Prod.fst).Nodup → (j, d) ∈ ws →
      (applyWrites dateCol ws data)[j]? =
        (data[j]?).map (fun row => setVal row dateCol (Value.vNum ((d : ℤ) : ℚ))) := by
  intro ws
  induction ws with
  | nil => intro data j d _ hmem; simp at hmem
  | cons w t ih =>
    intro data j d hnd hmem
    have hnd' : w.1 ∉ t.map Prod.fst ∧ (t.map Prod.fst).Nodup := by
      rw [List.map_cons] at hnd
      exact List.nodup_cons.mp hnd
    rw [applyWrites, List.foldl_cons]
    rcases List.mem_cons.mp hmem with rfl | hmt
    · have hnotin : ∀ v ∈ t, v.1 ≠ (j, d).1 := by
        intro v hv hveq
        exact hnd'.1 (hveq ▸ List.mem_map.mpr ⟨v, hv, rfl⟩)
      have h1 := applyWrites_getElem?_not_mem dateCol t
        (listModify data (j, d).1
          (fun row => setVal row dateCol (Value.vNum (((j, d).2 : ℤ) : ℚ)))) j hnotin
      rw [applyWrites] at h1
      rw [h1, listModify_getElem?, if_pos rfl]
    · have hne : w.1 ≠ j := by
        intro hw
        exact hnd'.1 (hw ▸ List.mem_map.mpr ⟨(j, d), hmt, rfl⟩)
      have h1 := ih (listModify data w.1
        (fun row => setVal row dateCol (Value.vNum ((w.2 : ℤ) : ℚ)))) j d hnd'.2 hmt
      rw [applyWrites] at h1
      rw [h1, listModify_getElem?, if_neg hne]

theorem except_map_ok {α β : Type} {e : Except String α} {f : α → β} {b : β}
    (h : e.map f = .ok b) : ∃ x, e = .ok x ∧ b = f x := by
  cases e with
  | error e' => simp [Except.map] at h
  | ok x =>
    refine ⟨x, rfl, ?_⟩
    simpa [Except.map] using h.symm

theorem forall₂_mem_right {α β : Type} {R : α → β → Prop} :
    ∀ {l1 : List α} {l2 : List β}, List.Forall₂ R l1 l2 → ∀ b ∈ l2, ∃ a ∈ l1, R a b := by
  intro l1 l2 h
  induction h with
  | nil => intro b hb; simp at hb
  | cons hab _ ih =>
    intro y hy
    rcases List.mem_cons.mp hy with rfl | hys
    · exact ⟨_, by simp, hab⟩
    · obtain ⟨a, ha, hRa⟩ := ih y hys
      exact ⟨a, by simp [ha], hRa⟩

theorem forall₂_map_both {α β γ δ : Type} {R : α → β → Prop} {S : γ → δ → Prop}
    (f : α → γ) (g : β → δ) (h : ∀ a b, R a b → S (f a) (g b)) :
    ∀ {l1 : List α} {l2 : List β}, List.Forall₂ R l1 l2 →
      List.Forall₂ S (l1.map f) (l2.map g) := by
  intro l1 l2 hf
  induction hf with
  | nil => exact List.Forall₂.nil
  | cons hab _ ih => exact List.Forall₂.cons (h _ _ hab) ih

theorem groupPairsFuel_ne_nil (key : Row → String) :
    ∀ (fuel : ℕ) (l : List (ℕ × Row)) (g : List (ℕ × Row)),
      g ∈ groupPairsFuel key fuel l → g ≠ [] := by
  intro fuel
  induction fuel with
  | zero => intro l g hg; simp [groupPairsFuel] at hg
  | succ fuel ih =>
    intro l g hg
    match l with
    | [] => simp [groupPairsFuel] at hg
    | p :: t =>
      rw [groupPairsFuel] at hg
      rcases List.mem_cons.mp hg with rfl | hgs
      · simp
      · exact ih _ g hgs

theorem anonymizeDates_spec (data : List Row) (columns : List String) (pnrCol dateCol : String)
    (hp : findColumnCaseInsensitive columns "pnr" = some pnrCol)
    (hd : findColumnCaseInsensitive columns "Datum" = some dateCol)
    (out : List Row)
    (hok : anonymizeDates data columns = .ok out) :
    out.length = data.length ∧
    ∀ g ∈ groupPairs (fun row => valueToKey (getVal row pnrCol)) data.enum,
      ∃ m : ℤ,
        (∃ p ∈ g, parseDateOpt (getVal p.2 dateCol) = .ok m) ∧
        ∀ p ∈ g, ∃ d : ℤ, parseDateOpt (getVal p.2 dateCol) = .ok d ∧ m ≤ d ∧
          out[p.1]? = some (setVal p.2 dateCol (Value.vNum ((d - m : ℤ) : ℚ))) := by
  simp only [anonymizeDates, hp, hd] at hok
  cases hm : (groupPairs (fun row => valueToKey (getVal row pnrCol)) data.enum).mapM
      (processGroup dateCol) with
  | error e =>
    rw [hm] at hok
    simp [Bind.bind, Except.bind] at hok
  | ok writesList =>
    rw [hm] at hok
    simp only [Bind.bind, Except.bind, pure, Except.pure, Except.ok.injEq] at hok
    have hfa := mapM_ok_forall₂ (processGroup dateCol) _ writesList hm
    have hfst2 : List.Forall₂ (fun (g : List (ℕ × Row)) (w : List (ℕ × ℤ)) =>
        (w.map Prod.fst).Perm (g.map Prod.fst))
        (groupPairs (fun row => valueToKey (getVal row pnrCol)) data.enum) writesList := by
      refine hfa.imp ?_
      intro g w hgw
      cases hmap : g.mapM (fun p =>
          (parseDateOpt (getVal p.2 dateCol)).map (fun d => (p.1, d))) with
      | error e =>
        rw [processGroup, hmap] at hgw
        simp [Bind.bind, Except.bind] at hgw
      | ok parsed =>
        have hfstp : parsed.map Prod.fst = g.map Prod.fst := by
          refine (forall₂_map_eq Prod.fst Prod.fst ?_
            (mapM_ok_forall₂ _ g parsed hmap)).symm
          intro p q hrel
          obtain ⟨x, _, hq⟩ := except_map_ok hrel
          rw [hq]
        rcases processGroup_spec dateCol g parsed hmap with ⟨hpe, hok0⟩ |
          ⟨ws, m, hok1, hperm, _, _⟩
        · rw [hgw] at hok0
          cases hok0
          subst hpe
          rw [List.map_nil, ← hfstp, List.map_nil]
        · rw [hgw] at hok1
          cases hok1
          have hshift : (parsed.map (fun p => (p.1, p.2 - m))).map Prod.fst
              = parsed.map Prod.fst := by
            rw [List.map_map]
            rfl
          exact ((hperm.map Prod.fst).trans (by rw [hshift, hfstp])).symm.symm
    have hperm_fst : (writesList.flatten.map Prod.fst).Perm (data.enum.map Prod.fst) := by
      have h1 : List.Forall₂ (fun (a b : List ℕ) => a.Perm b)
          (writesList.map (fun w => w.map Prod.fst))
          ((groupPairs (fun row => valueToKey (getVal row pnrCol)) data.enum).map
            (fun g => g.map Prod.fst)) :=
        forall₂_map_both (fun w : List (ℕ × ℤ) => w.map Prod.fst)
          (fun g : List (ℕ × Row) => g.map Prod.fst) (fun _ _ h => h) hfst2.flip
      have h2 := forall₂_flatten_perm h1
      rw [← List.map_flatten, ← List.map_flatten] at h2
      exact h2.trans ((groupPairs_flatten_perm _ data.enum).map Prod.fst)
    have hnodup : (writesList.flatten.map Prod.fst).Nodup :=
      hperm_fst.nodup_iff.mpr (List.nodup_enum_map_fst data)
    refine ⟨by rw [← hok]; exact applyWrites_length dateCol _ data, ?_⟩
    intro g hg
    obtain ⟨w, hwmem, hgw⟩ := forall₂_mem_left hfa g hg
    cases hmap : g.mapM (fun p =>
        (parseDateOpt (getVal p.2 dateCol)).map (fun d => (p.1, d))) with
    | error e =>
      rw [processGroup, hmap] at hgw
      simp [Bind.bind, Except.bind] at hgw
    | ok parsed =>
      have hf₂ := mapM_ok_forall₂ _ g parsed hmap
      have hgne : g ≠ [] := by
        rw [groupPairs] at hg
        exact groupPairsFuel_ne_nil _ _ _ g hg
      rcases processGroup_spec dateCol g parsed hmap with ⟨hpe, _⟩ |
        ⟨ws, m, hok1, hperm, hatt, hmin⟩
      · exfalso
        apply hgne
        have hlen := hf₂.length_eq
        rw [hpe] at hlen
        exact List.eq_nil_of_length_eq_zero (by simpa using hlen)
      · rw [hgw] at hok1
        cases hok1
        refine ⟨m, ?_, ?_⟩
        · obtain ⟨q, hq, hq2⟩ := hatt
          obtain ⟨p, hpg, hrel⟩ := forall₂_mem_right hf₂ q hq
          obtain ⟨d0, hparse, hqeq⟩ := except_map_ok hrel
          refine ⟨p, hpg, ?_⟩
          rw [hqeq] at hq2
          simp only at hq2
          rw [hparse, hq2]
        · intro p hpg
          obtain ⟨q, hq, hrel⟩ := forall₂_mem_left hf₂ p hpg
          obtain ⟨d0, hparse, hqeq⟩ := except_map_ok hrel
          subst hqeq
          refine ⟨d0, hparse, by simpa using hmin _ hq, ?_⟩
          have hwmem2 : (p.1, d0 - m) ∈ w :=
            hperm.mem_iff.mpr (List.mem_map.mpr ⟨(p.1, d0), hq, rfl⟩)
          have hjoin : (p.1, d0 - m) ∈ writesList.flatten :=
            List.mem_flatten.mpr ⟨w, hwmem, hwmem2⟩
          have happ := applyWrites_getElem?_mem dateCol writesList.flatten data p.1 (d0 - m)
            hnodup hjoin
          have hpenum : p ∈ data.enum :=
            (groupPairs_flatten_perm (fun row => valueToKey (getVal row pnrCol))
              data.enum).subset (List.mem_flatten.mpr ⟨g, hg, hpg⟩)
          have hdata : data[p.1]? = some p.2 :=
            List.mem_enum_iff_getElem?.mp hpenum
          rw [← hok, happ, hdata]
          rfl

/-- C3 (amended, script.js variant): for every table on which `anonymizeDates`
succeeds and every patient group, there is a minimum parsed day `m` — the
patient's earliest parsed visit date — such that every row of the patient is
rewritten to its parsed day minus `m` (the whole days elapsed since the
earliest visit), some row attains offset 0, and all offsets are non-negative.
(The part_000 variant instead writes ordinal visit numbers; see
`anonymizeDates_visit_numbers_cex`.) -/
theorem anonymizeDates_day_offsets (data : List Row) (columns : List String)
    (pnrCol dateCol : String) (out : List Row)
    (hp : findColumnCaseInsensitive columns "pnr" = some pnrCol)
    (hd : findColumnCaseInsensitive columns "Datum" = some dateCol)
    (hok : anonymizeDates data columns = .ok out) :
    ∀ g ∈ groupPairs (fun row => valueToKey (getVal row pnrCol)) data.enum,
      ∃ m : ℤ,
        (∀ p ∈ g, ∀ d : ℤ, parseDateOpt (getVal p.2 dateCol) = .ok d → m ≤ d) ∧
        (∃ p ∈ g, parseDateOpt (getVal p.2 dateCol) = .ok m ∧
          out[p.1]? = some (setVal p.2 dateCol (Value.vNum ((0 : ℤ) : ℚ)))) ∧
        (∀ p ∈ g, ∃ d : ℤ, parseDateOpt (getVal p.2 dateCol) = .ok d ∧
          out[p.1]? = some (setVal p.2 dateCol (Value.vNum ((d - m : ℤ) : ℚ))) ∧ 0 ≤ d - m) := by
  intro g hg
  obtain ⟨-, hspec⟩ := anonymizeDates_spec data columns pnrCol dateCol hp hd out hok
  obtain ⟨m, ⟨p0, hp0, hp0m⟩, hall⟩ := hspec g hg
  refine ⟨m, ?_, ?_, ?_⟩
  · intro p hpg d hparse
    obtain ⟨d', hparse', hmd', -⟩ := hall p hpg
    rw [hparse] at hparse'
    cases hparse'
    exact hmd'
  · obtain ⟨d', hparse', hmd', hout'⟩ := hall p0 hp0
    rw [hp0m] at hparse'
    cases hparse'
    refine ⟨p0, hp0, hp0m, ?_⟩
    rw [hout']
    congr 2
    simp
  · intro p hpg
    obtain ⟨d, hparse, hmd, hout'⟩ := hall p hpg
    exact ⟨d, hparse, hout', by omega⟩

/-- C3 witness: a patient with two numeric spreadsheet serials 0 and 5
satisfies the hypotheses of `anonymizeDates_day_offsets`; the output rewrites
the dates to offsets 0 and 5. -/
theorem anonymizeDates_day_offsets_witness :
    anonymizeDates [[("PNR", Value.vNum 1), ("Datum", Value.vNum 0)],
       [("PNR", Value.vNum 1), ("Datum", Value.vNum 5)]] ["PNR", "Datum"] =
      .ok [[("PNR", Value.vNum 1), ("Datum", Value.vNum 0)],
       [("PNR", Value.vNum 1), ("Datum", Value.vNum 5)]] ∧
    ∀ g ∈ groupPairs (fun row => valueToKey (getVal row "PNR"))
      ([[("PNR", Value.vNum 1), ("Datum", Value.vNum 0)],
        [("PNR", Value.vNum 1), ("Datum", Value.vNum 5)]] : List Row).enum,
      ∃ m : ℤ,
        (∀ p ∈ g, ∀ d : ℤ, parseDateOpt (getVal p.2 "Datum") = .ok d → m ≤ d) ∧
        (∃ p ∈ g, parseDateOpt (getVal p.2 "Datum") = .ok m ∧
          ([[("PNR", Value.vNum 1), ("Datum", Value.vNum 0)],
            [("PNR", Value.vNum 1), ("Datum", Value.vNum 5)]] : List Row)[p.1]? =
            some (setVal p.2 "Datum" (Value.vNum ((0 : ℤ) : ℚ)))) ∧
        (∀ p ∈ g, ∃ d : ℤ, parseDateOpt (getVal p.2 "Datum") = .ok d ∧
          ([[("PNR", Value.vNum 1), ("Datum", Value.vNum 0)],
            [("PNR", Value.vNum 1), ("Datum", Value.vNum 5)]] : List Row)[p.1]? =
            some (setVal p.2 "Datum" (Value.vNum ((d - m : ℤ) : ℚ))) ∧ 0 ≤ d - m) :=
  ⟨by decide, anonymizeDates_day_offsets _ ["PNR", "Datum"] "PNR" "Datum" _
    (by decide) (by decide) (by decide)⟩

/-- C3 counterexample: the part_000 variant of date anonymization writes
ordinal visit numbers, not day offsets.  For one patient with serial dates
0 and 5 — five whole days apart — the second row is rewritten to 1, while
the number of whole days since the patient's earliest parsed visit is 5. -/
theorem anonymizeDates_visit_numbers_cex :
    anonymizeDates_part000 [[("PNR", Value.vNum 1), ("Datum", Value.vNum 0)],
      [("PNR", Value.vNum 1), ("Datum", Value.vNum 5)]] ["PNR", "Datum"] =
      .ok [[("PNR", Value.vNum 1), ("Datum", Value.vNum 0)],
        [("PNR", Value.vNum 1), ("Datum", Value.vNum 1)]] ∧
    parseDateOpt (getVal [("PNR", Value.vNum 1), ("Datum", Value.vNum 0)] "Datum") =
      .ok (-25569) ∧
    parseDateOpt (getVal [("PNR", Value.vNum 1), ("Datum", Value.vNum 5)] "Datum") =
      .ok (-25564) ∧
    (-25564 : ℤ) - (-25569) = 5 ∧ (Value.vNum 1 : Value) ≠ Value.vNum 5 := by
  refine ⟨by decide, by decide, by decide, by decide, by decide⟩

/-- C10 (confirmed): `anonymizeDates` never changes the order of rows — the
output has the same length as the input and row `j` of the output is exactly
row `j` of the input with only the date field's value replaced (by some
integer day offset). -/
theorem anonymizeDates_preserves_order (data : List Row) (columns : List String)
    (pnrCol dateCol : String) (out : List Row)
    (hp : findColumnCaseInsensitive columns "pnr" = some pnrCol)
    (hd : findColumnCaseInsensitive columns "Datum" = some dateCol)
    (hok : anonymizeDates data columns = .ok out) :
    out.length = data.length ∧
    ∀ (j : ℕ) (r : Row), data[j]? = some r →
      ∃ d : ℤ, out[j]? = some (setVal r dateCol (Value.vNum (d : ℚ))) := by
  obtain ⟨hlen, hspec⟩ := anonymizeDates_spec data columns pnrCol dateCol hp hd out hok
  refine ⟨hlen, ?_⟩
  intro j r hjr
  have hmem : (j, r) ∈ data.enum := List.mem_enum_iff_getElem?.mpr hjr
  have hmem2 : (j, r) ∈ (groupPairs (fun row => valueToKey (getVal row pnrCol))
      data.enum).flatten :=
    (groupPairs_flatten_perm (fun row => valueToKey (getVal row pnrCol)) data.enum).symm.subset
      hmem
  obtain ⟨g, hg, hpg⟩ := List.mem_flatten.mp hmem2
  obtain ⟨m, -, hall⟩ := hspec g hg
  obtain ⟨d, -, -, hout⟩ := hall (j, r) hpg
  exact ⟨d - m, hout⟩

/-- C10 witness: the hypotheses of `anonymizeDates_preserves_order` hold at
a concrete two-row table, with the conclusion instantiated there. -/
theorem anonymizeDates_preserves_order_witness :
    ([[("PNR", Value.vNum 1), ("Datum", Value.vNum 0)],
      [("PNR", Value.vNum 1), ("Datum", Value.vNum 5)]] : List Row).length = 2 ∧
    (let data : List Row := [[("PNR", Value.vNum 1), ("Datum", Value.vNum 0)],
      [("PNR", Value.vNum 1), ("Datum", Value.vNum 5)]];
     let out : List Row := [[("PNR", Value.vNum 1), ("Datum", Value.vNum 0)],
      [("PNR", Value.vNum 1), ("Datum", Value.vNum 5)]];
     out.length = data.length ∧
     ∀ (j : ℕ) (r : Row), data[j]? = some r →
       ∃ d : ℤ, out[j]? = some (setVal r "Datum" (Value.vNum (d : ℚ)))) :=
  ⟨rfl, anonymizeDates_preserves_order _ ["PNR", "Datum"] "PNR" "Datum" _
    (by decide) (by decide) (by decide)⟩

/-! ### Characterization of date-parse success and failure (C7) -/

theorem digit_toNat_bounds (c : Char) (h : c.isDigit = true) :
    48 ≤ c.toNat ∧ c.toNat ≤ 57 := by
  simp only [Char.isDigit, ge_iff_le, Bool.and_eq_true, decide_eq_true_eq] at h
  obtain ⟨h1, h2⟩ := h
  exact ⟨h1, h2⟩

theorem digitsToNat_foldl_lt (l : List Char) (hdig : ∀ c ∈ l, c.isDigit = true) :
    ∀ acc : ℕ, l.foldl (fun n c => 10 * n + (c.toNat - 48)) acc < (acc + 1) * 10 ^ l.length := by
  induction l with
  | nil => intro acc; simp
  | cons c t ih =>
    intro acc
    rw [List.foldl_cons]
    have hc := digit_toNat_bounds c (hdig c (by simp))
    have hstep := ih (fun c hc => hdig c (by simp [hc])) (10 * acc + (c.toNat - 48))
    have hle : (10 * acc + (c.toNat - 48) + 1) * 10 ^ t.length ≤ (acc + 1) * 10 ^ (t.length + 1) := by
      have hd9 : c.toNat - 48 ≤ 9 := by omega
      have : 10 * acc + (c.toNat - 48) + 1 ≤ (acc + 1) * 10 := by omega
      calc (10 * acc + (c.toNat - 48) + 1) * 10 ^ t.length
          ≤ ((acc + 1) * 10) * 10 ^ t.length := Nat.mul_le_mul_right _ this
        _ = (acc + 1) * 10 ^ (t.length + 1) := by ring
    calc List.foldl (fun n c => 10 * n + (c.toNat - 48)) (10 * acc + (c.toNat - 48)) t
        < (10 * acc + (c.toNat - 48) + 1) * 10 ^ t.length := hstep
      _ ≤ (acc + 1) * 10 ^ (t.length + 1) := hle
      _ = (acc + 1) * 10 ^ (c :: t).length := by simp

theorem digitsToNat_lt (l : List Char) (hdig : ∀ c ∈ l, c.isDigit = true) :
    digitsToNat l < 10 ^ l.length := by
  have := digitsToNat_foldl_lt l hdig 0
  simpa [digitsToNat] using this

theorem jsDateDays_bound (y m0 d : ℤ) (hy0 : 0 ≤ y) (hy1 : y ≤ 10000) (hm0 : -1 ≤ m0)
    (hm1 : m0 ≤ 98) (hd0 : 0 ≤ d) (hd1 : d ≤ 99) :
    -800000 ≤ jsDateDays y m0 d ∧ jsDateDays y m0 d ≤ 3200000 := by
  have h12 : (0 : ℤ) ≤ 12 := by norm_num
  have h400 : (0 : ℤ) ≤ 400 := by norm_num
  have h4 : (0 : ℤ) ≤ 4 := by norm_num
  have h100 : (0 : ℤ) ≤ 100 := by norm_num
  have h5 : (0 : ℤ) ≤ 5 := by norm_num
  simp only [jsDateDays, daysFromCivil, Int.fdiv_eq_ediv _ h12, Int.fdiv_eq_ediv _ h400,
    Int.fdiv_eq_ediv _ h4, Int.fdiv_eq_ediv _ h100, Int.fdiv_eq_ediv _ h5]
  split_ifs <;> constructor <;> omega

theorem serialFinish_int_ok (n : ℤ) (h1 : -100000000 ≤ excelEpochDays + n)
    (h2 : excelEpochDays + n ≤ 100000000) :
    serialFinish (n : ℚ) = .ok (excelEpochDays + n) := by
  have hms : qAdd ((epochMs : ℤ) : ℚ) (qMul (n : ℚ) 86400000)
      = (((epochMs + n * 86400000 : ℤ)) : ℚ) := by
    rw [qAdd_eq, qMul_eq]
    push_cast
    ring
  have hepoch : epochMs = excelEpochDays * 86400000 := rfl
  rw [serialFinish]
  simp only [hms]
  rw [if_neg ?hcond]
  case hcond =>
    rw [not_or, not_lt, not_lt]
    constructor
    · have hint : (-8640000000000000 : ℤ) ≤ epochMs + n * 86400000 := by
        rw [hepoch]; nlinarith [h1, h2]
      calc (-8640000000000000 : ℚ) = ((-8640000000000000 : ℤ) : ℚ) := by norm_num
        _ ≤ ((epochMs + n * 86400000 : ℤ) : ℚ) := by exact_mod_cast hint
    · have hint : epochMs + n * 86400000 ≤ (8640000000000000 : ℤ) := by
        rw [hepoch]; nlinarith [h1, h2]
      calc ((epochMs + n * 86400000 : ℤ) : ℚ) ≤ ((8640000000000000 : ℤ) : ℚ) := by
            exact_mod_cast hint
        _ = (8640000000000000 : ℚ) := by norm_num
  congr 1
  have hdiv : qDiv (((epochMs + n * 86400000 : ℤ)) : ℚ) 86400000
      = ((excelEpochDays + n : ℤ) : ℚ) := by
    rw [qDiv_eq, hepoch]
    push_cast
    field_simp
    ring
  rw [hdiv, Int.floor_intCast]

theorem sub_digits_lt (l : List Char) (hdig : ∀ c ∈ l, c.isDigit = true) (a b : ℕ) :
    digitsToNat ((l.drop a).take b) < 10 ^ b := by
  have hsub : ∀ c ∈ (l.drop a).take b, c.isDigit = true := by
    intro c hc
    exact hdig c (List.mem_of_mem_drop (List.mem_of_mem_take hc))
  have hlt := digitsToNat_lt _ hsub
  have hlen : ((l.drop a).take b).length ≤ b := by
    simp [List.length_take]
  exact lt_of_lt_of_le hlt (Nat.pow_le_pow_right (by norm_num) hlen)

theorem take_digits_lt (l : List Char) (hdig : ∀ c ∈ l, c.isDigit = true) (b : ℕ) :
    digitsToNat (l.take b) < 10 ^ b := by
  have := sub_digits_lt l hdig 0 b
  simpa using this

theorem parseDate_str8_ok (s : String) (hs : ¬ s = "")
    (h8 : (s.data.filter Char.isDigit).length = 8) :
    ∃ d, parseDate (Value.vStr s) = .ok d := by
  have hdig : ∀ c ∈ s.data.filter Char.isDigit, c.isDigit = true :=
    fun c hc => (List.mem_filter.mp hc).2
  have hy := take_digits_lt _ hdig 4
  have hm := sub_digits_lt _ hdig 4 2
  have hd := sub_digits_lt _ hdig 6 2
  norm_num at hy hm hd
  have hb := jsDateDays_bound ((digitsToNat ((s.data.filter Char.isDigit).take 4) : ℕ) : ℤ)
    (((digitsToNat (((s.data.filter Char.isDigit).drop 4).take 2) : ℕ) : ℤ) - 1)
    ((digitsToNat (((s.data.filter Char.isDigit).drop 6).take 2) : ℕ) : ℤ)
    (by omega) (by omega) (by omega) (by omega) (by omega) (by omega)
  simp only [parseDate]
  rw [if_neg hs, if_pos h8]
  exact ⟨_, serialFinish_int_ok _ (by omega) (by omega)⟩

theorem parseDate_str9_ok (s : String) (hs : ¬ s = "")
    (h9 : (s.data.filter Char.isDigit).length = 9) :
    ∃ d, parseDate (Value.vStr s) = .ok d := by
  have hdig : ∀ c ∈ s.data.filter Char.isDigit, c.isDigit = true :=
    fun c hc => (List.mem_filter.mp hc).2
  have hc := take_digits_lt _ hdig 2
  have hyy := sub_digits_lt _ hdig 2 2
  have hm := sub_digits_lt _ hdig 4 2
  have hd := sub_digits_lt _ hdig 6 2
  norm_num at hc hyy hm hd
  have hb := jsDateDays_bound
    (((digitsToNat ((s.data.filter Char.isDigit).take 2) : ℕ) : ℤ) * 100 +
      ((digitsToNat (((s.data.filter Char.isDigit).drop 2).take 2) : ℕ) : ℤ))
    (((digitsToNat (((s.data.filter Char.isDigit).drop 4).take 2) : ℕ) : ℤ) - 1)
    ((digitsToNat (((s.data.filter Char.isDigit).drop 6).take 2) : ℕ) : ℤ)
    (by omega) (by omega) (by omega) (by omega) (by omega) (by omega)
  simp only [parseDate]
  rw [if_neg hs, if_neg (by omega : ¬ (s.data.filter Char.isDigit).length = 8), if_pos h9]
  exact ⟨_, serialFinish_int_ok _ (by omega) (by omega)⟩

theorem parseDate_str6_ok (s : String) (hs : ¬ s = "")
    (h6 : (s.data.filter Char.isDigit).length = 6) :
    ∃ d, parseDate (Value.vStr s) = .ok d := by
  have hdig : ∀ c ∈ s.data.filter Char.isDigit, c.isDigit = true :=
    fun c hc => (List.mem_filter.mp hc).2
  have hyy := take_digits_lt _ hdig 2
  have hm := sub_digits_lt _ hdig 2 2
  have hd := sub_digits_lt _ hdig 4 2
  norm_num at hyy hm hd
  have hb := jsDateDays_bound
    (if ((digitsToNat ((s.data.filter Char.isDigit).take 2) : ℕ) : ℤ) < 50 then
      2000 + ((digitsToNat ((s.data.filter Char.isDigit).take 2) : ℕ) : ℤ)
     else 1900 + ((digitsToNat ((s.data.filter Char.isDigit).take 2) : ℕ) : ℤ))
    (((digitsToNat (((s.data.filter Char.isDigit).drop 2).take 2) : ℕ) : ℤ) - 1)
    ((digitsToNat (((s.data.filter Char.isDigit).drop 4).take 2) : ℕ) : ℤ)
    (by split_ifs <;> omega) (by split_ifs <;> omega) (by omega) (by omega)
    (by omega) (by omega)
  simp only [parseDate]
  rw [if_neg hs, if_neg (by omega : ¬ (s.data.filter Char.isDigit).length = 8),
    if_neg (by omega : ¬ (s.data.filter Char.isDigit).length = 9), if_pos h6]
  exact ⟨_, serialFinish_int_ok _ (by omega) (by omega)⟩

theorem parseDate_str57_ok (s : String) (hs : ¬ s = "")
    (hlen : (s.data.filter Char.isDigit).length = 5 ∨ (s.data.filter Char.isDigit).length = 7)
    (hr1 : 1000 < digitsToNat (s.data.filter Char.isDigit))
    (hr2 : digitsToNat (s.data.filter Char.isDigit) < 100000) :
    ∃ d, parseDate (Value.vStr s) = .ok d := by
  have he : excelEpochDays = -25569 := by decide
  simp only [parseDate]
  rw [if_neg hs, if_neg (by omega : ¬ (s.data.filter Char.isDigit).length = 8),
    if_neg (by omega : ¬ (s.data.filter Char.isDigit).length = 9),
    if_neg (by omega : ¬ (s.data.filter Char.isDigit).length = 6),
    if_pos (by omega : 5 ≤ (s.data.filter Char.isDigit).length ∧
      (s.data.filter Char.isDigit).length ≤ 7),
    if_pos (⟨by exact_mod_cast hr1, by exact_mod_cast hr2⟩ :
      (1000 : ℚ) < (digitsToNat (s.data.filter Char.isDigit) : ℚ) ∧
      (digitsToNat (s.data.filter Char.isDigit) : ℚ) < 100000)]
  have hcast : ((digitsToNat (s.data.filter Char.isDigit) : ℕ) : ℚ)
      = (((digitsToNat (s.data.filter Char.isDigit) : ℕ) : ℤ) : ℚ) := by
    push_cast
    ring
  rw [hcast]
  exact ⟨_, serialFinish_int_ok _ (by omega) (by omega)⟩

theorem parseDate_str_err (s : String) (hs : ¬ s = "")
    (h6 : (s.data.filter Char.isDigit).length ≠ 6)
    (h8 : (s.data.filter Char.isDigit).length ≠ 8)
    (h9 : (s.data.filter Char.isDigit).length ≠ 9)
    (h57 : ((s.data.filter Char.isDigit).length = 5 ∨ (s.data.filter Char.isDigit).length = 7) →
      ¬(1000 < digitsToNat (s.data.filter Char.isDigit) ∧
        digitsToNat (s.data.filter Char.isDigit) < 100000)) :
    ∀ d, parseDate (Value.vStr s) ≠ .ok d := by
  intro d
  simp only [parseDate]
  rw [if_neg hs, if_neg h8, if_neg h9, if_neg h6]
  by_cases hlen : 5 ≤ (s.data.filter Char.isDigit).length ∧
      (s.data.filter Char.isDigit).length ≤ 7
  · rw [if_pos hlen]
    have h57' : (s.data.filter Char.isDigit).length = 5 ∨
        (s.data.filter Char.isDigit).length = 7 := by omega
    have hnr : ¬((1000 : ℚ) < (digitsToNat (s.data.filter Char.isDigit) : ℚ) ∧
        (digitsToNat (s.data.filter Char.isDigit) : ℚ) < 100000) := by
      intro hcq
      exact h57 h57' ⟨by exact_mod_cast hcq.1, by exact_mod_cast hcq.2⟩
    rw [if_neg hnr]
    simp
  · rw [if_neg hlen]
    simp

/-- C7 (amended): date-parse failure conditions.  Empty or absent values
fail; a raw numeric cell succeeds exactly when its timestamp lies inside the
representable range ±8.64e15 ms (about ±100,000,000 days — the one failure
mode beyond emptiness and shape, see `parseDate_range_cex`); a non-empty
string succeeds exactly when its digits-only form has length 6, 8 or 9, or
length 5 or 7 with numeric value strictly between 1,000 and 100,000 (the
spreadsheet-serial window); and any parse failure is fatal to the whole
stage — a successful `anonymizeDates` run requires every row's date to
parse, so no row is skipped. -/
theorem parseDate_failure_characterization :
    (parseDateOpt none = .error "Empty date value encountered" ∧
     parseDate Value.vNull = .error "Empty date value encountered" ∧
     parseDate (Value.vStr "") = .error "Empty date value encountered") ∧
    (∀ q : ℚ, (∃ d, parseDate (Value.vNum q) = .ok d) ↔
      (-8640000000000000 ≤ qAdd ((epochMs : ℤ) : ℚ) (qMul q 86400000) ∧
        qAdd ((epochMs : ℤ) : ℚ) (qMul q 86400000) ≤ 8640000000000000)) ∧
    (∀ s : String, s ≠ "" →
      ((∃ d, parseDate (Value.vStr s) = .ok d) ↔
        ((s.data.filter Char.isDigit).length = 6 ∨ (s.data.filter Char.isDigit).length = 8 ∨
         (s.data.filter Char.isDigit).length = 9 ∨
         (((s.data.filter Char.isDigit).length = 5 ∨ (s.data.filter Char.isDigit).length = 7) ∧
           1000 < digitsToNat (s.data.filter Char.isDigit) ∧
           digitsToNat (s.data.filter Char.isDigit) < 100000)))) ∧
    (∀ (data : List Row) (columns : List String) (pnrCol dateCol : String),
      findColumnCaseInsensitive columns "pnr" = some pnrCol →
      findColumnCaseInsensitive columns "Datum" = some dateCol →
      ∀ out, anonymizeDates data columns = .ok out →
        ∀ r ∈ data, ∃ d, parseDateOpt (getVal r dateCol) = .ok d) := by
  refine ⟨⟨rfl, rfl, rfl⟩, ?_, ?_, ?_⟩
  · intro q
    constructor
    · rintro ⟨d, hd⟩
      rw [parseDate.eq_def] at hd
      simp only [serialFinish] at hd
      by_cases hcond : qAdd ((epochMs : ℤ) : ℚ) (qMul q 86400000) < -8640000000000000 ∨
          (8640000000000000 : ℚ) < qAdd ((epochMs : ℤ) : ℚ) (qMul q 86400000)
      · rw [if_pos hcond] at hd
        cases hd
      · rw [not_or, not_lt, not_lt] at hcond
        exact ⟨hcond.1, hcond.2⟩
    · rintro ⟨h1, h2⟩
      rw [parseDate.eq_def]
      simp only [serialFinish]
      rw [if_neg (by rw [not_or, not_lt, not_lt]; exact ⟨h1, h2⟩)]
      exact ⟨_, rfl⟩
  · intro s hs
    constructor
    · rintro ⟨d, hd⟩
      by_contra hcon
      have h6 : (s.data.filter Char.isDigit).length ≠ 6 := fun he => hcon (Or.inl he)
      have h8 : (s.data.filter Char.isDigit).length ≠ 8 :=
        fun he => hcon (Or.inr (Or.inl he))
      have h9 : (s.data.filter Char.isDigit).length ≠ 9 :=
        fun he => hcon (Or.inr (Or.inr (Or.inl he)))
      have h57 : ((s.data.filter Char.isDigit).length = 5 ∨
          (s.data.filter Char.isDigit).length = 7) →
          ¬(1000 < digitsToNat (s.data.filter Char.isDigit) ∧
            digitsToNat (s.data.filter Char.isDigit) < 100000) :=
        fun hl hr => hcon (Or.inr (Or.inr (Or.inr ⟨hl, hr.1, hr.2⟩)))
      exact parseDate_str_err s hs h6 h8 h9 h57 d hd
    · rintro (h6 | h8 | h9 | ⟨hl, hr1, hr2⟩)
      · exact parseDate_str6_ok s hs h6
      · exact parseDate_str8_ok s hs h8
      · exact parseDate_str9_ok s hs h9
      · exact parseDate_str57_ok s hs hl hr1 hr2
  · intro data columns pnrCol dateCol hp hd out hok r hr
    obtain ⟨j, hjr⟩ := List.mem_iff_getElem?.mp hr
    have hmem : (j, r) ∈ data.enum := List.mem_enum_iff_getElem?.mpr hjr
    have hmem2 : (j, r) ∈ (groupPairs (fun row => valueToKey (getVal row pnrCol))
        data.enum).flatten :=
      (groupPairs_flatten_perm (fun row => valueToKey (getVal row pnrCol))
        data.enum).symm.subset hmem
    obtain ⟨g, hg, hpg⟩ := List.mem_flatten.mp hmem2
    obtain ⟨-, hspec⟩ := anonymizeDates_spec data columns pnrCol dateCol hp hd out hok
    obtain ⟨m, -, hall⟩ := hspec g hg
    obtain ⟨d0, hparse, -, -⟩ := hall (j, r) hpg
    exact ⟨d0, hparse⟩

/-- C7 witness: the characterization is applied at the 5-digit serial string
`"12345"` (inside the plausible window, hence accepted) and at a concrete
two-row run, whose success forces every row's date to parse. -/
theorem parseDate_failure_characterization_witness :
    (∃ d, parseDate (Value.vStr "12345") = .ok d) ∧
    (∀ r ∈ ([[("PNR", Value.vNum 1), ("Datum", Value.vNum 0)],
      [("PNR", Value.vNum 1), ("Datum", Value.vNum 5)]] : List Row),
      ∃ d, parseDateOpt (getVal r "Datum") = .ok d) := by
  constructor
  · exact (parseDate_failure_characterization.2.2.1 "12345" (by decide)).mpr (by decide)
  · exact parseDate_failure_characterization.2.2.2
      [[("PNR", Value.vNum 1), ("Datum", Value.vNum 0)],
       [("PNR", Value.vNum 1), ("Datum", Value.vNum 5)]]
      ["PNR", "Datum"] "PNR" "Datum" (by decide) (by decide)
      [[("PNR", Value.vNum 1), ("Datum", Value.vNum 0)],
       [("PNR", Value.vNum 1), ("Datum", Value.vNum 5)]] (by decide)

/-- C7 counterexample: a raw numeric date cell of 1,000,000,000 (a number,
not empty, and of a recognized shape — the numeric spreadsheet-serial path)
still fails, because the resulting timestamp exceeds the representable
range; so "parsing raises an error exactly when the value is empty/absent or
has an unrecognized shape" is not literally true. -/
theorem parseDate_range_cex :
    parseDate (Value.vNum 1000000000) = .error "Failed to convert to date" ∧
    Value.vNum 1000000000 ≠ Value.vNull ∧
    parseDate (Value.vNum 40000) = .ok 14431 := by
  refine ⟨by decide, by decide, by decide⟩

/-- C6 counterexample: the claim assumes `"150123"` resolves to 2023-01-15
under a day-month-year reading, but `parseDate` classifies 6-digit strings
as YYMMDD, so `"150123"` is 2015-01-23 — 2914 days before 2023-01-15.  After
anonymization the `"20230115"` row gets offset 2914 and the `"150123"` row
gets offset 0; they are not both 0. -/
theorem sameDate_tie_cex :
    anonymizeDates [[("PNR", Value.vNum 1), ("Datum", Value.vStr "20230115")],
      [("PNR", Value.vNum 1), ("Datum", Value.vStr "150123")]] ["PNR", "Datum"] =
      .ok [[("PNR", Value.vNum 1), ("Datum", Value.vNum 2914)],
        [("PNR", Value.vNum 1), ("Datum", Value.vNum 0)]] ∧
    parseDate (Value.vStr "20230115") = .ok 19372 ∧
    parseDate (Value.vStr "150123") = .ok 16458 ∧
    (16458 : ℤ) ≠ 19372 ∧
    (Value.vNum 2914 : Value) ≠ Value.vNum 0 := by
  refine ⟨by decide, by decide, by decide, by decide, by decide⟩

/-- C6 (amended): two date strings of the same patient that actually parse
to the same calendar date — `"20230115"` (YYYYMMDD) and `"230115"` (YYMMDD),
both 2023-01-15 — receive day-offset 0 on both rows after anonymization. -/
theorem sameDate_tie_amended :
    parseDate (Value.vStr "20230115") = parseDate (Value.vStr "230115") ∧
    anonymizeDates [[("PNR", Value.vNum 1), ("Datum", Value.vStr "20230115")],
      [("PNR", Value.vNum 1), ("Datum", Value.vStr "230115")]] ["PNR", "Datum"] =
      .ok [[("PNR", Value.vNum 1), ("Datum", Value.vNum 0)],
        [("PNR", Value.vNum 1), ("Datum", Value.vNum 0)]] := by
  refine ⟨by decide, by decide⟩

/-! ### C4: numeric perturbation (`anonymizeNumericValues`, script.js 206-232)

`FEATURE_MAP` itself is declared outside the provided sources (it is loaded
with the page), so the map is a parameter here: an entry is either a string
action such as `'rm'` (handled by the column-dropping stage, skipped by the
`typeof action === 'number'` test) or a numeric jitter magnitude.
`Math.random()` is a parameter `rand : ℕ → ℚ` consumed once per modified
cell, in modification order. -/

/-- A `FEATURE_MAP` entry value: a string action (only `'rm'` occurs) or a
numeric jitter magnitude. -/
inductive FAction where
  | rm
  | num (m : ℚ)
deriving DecidableEq, Repr

/-- The guard `value != null && isNumeric(value)` of the `forEach` body:
loose inequality `!= null` excludes exactly `undefined` and `null`. -/
def cellModifiable (col : String) (row : Row) : Bool :=
  match getVal row col with
  | none => false
  | some v => !(v = Value.vNull) && isNumeric v

/-- The two rounding branches: `Math.round(newValue)` when `action >= 1.0`,
else `Math.round(newValue * 10) / 10`; `Math.round x = ⌊x + 1/2⌋`. -/
def roundCell (m x : ℚ) : Value :=
  if 1 ≤ m then Value.vNum ((⌊qAdd x (mkRat 1 2)⌋ : ℤ) : ℚ)
  else Value.vNum (qDiv ((⌊qAdd (qMul x 10) (mkRat 1 2)⌋ : ℤ) : ℚ) 10)

/-- One cell update: `newValue = parseFloat(value) + modification`, written
back through the rounding branch. -/
def perturbCell (col : String) (m u : ℚ) (row : Row) : Row :=
  setVal row col (roundCell m (qAdd ((jsParseFloatOpt (getVal row col)).getD 0) u))

/-- The `data.forEach(row => ...)` loop for one numeric feature-map entry:
each modified cell consumes the next random draw
(`modification = (Math.random() * 2 - 1) * action`) and increments
`modifiedCount`. -/
def perturbRows (col : String) (m : ℚ) (rand : ℕ → ℚ) : List Row → ℕ → List Row × ℕ
  | [], cnt => ([], cnt)
  | row :: t, cnt =>
    if cellModifiable col row then
      let r := perturbRows col m rand t (cnt + 1)
      (perturbCell col m (qMul (qSub (qMul (rand cnt) 2) 1) m) row :: r.1, r.2)
    else
      let r := perturbRows col m rand t cnt
      (row :: r.1, r.2)

/-- `anonymizeNumericValues(data, columns)`: iterates the feature-map
entries, skipping non-numeric actions and unresolvable columns, and returns
the rewritten rows with `modifiedCount`. -/
def anonymizeNumericValues (featureMap : List (String × FAction)) (rand : ℕ → ℚ)
    (data : List Row) (columns : List String) : List Row × ℕ :=
  featureMap.foldl (fun acc entry =>
    match entry.2 with
    | FAction.rm => acc
    | FAction.num m =>
      match findColumnCaseInsensitive columns entry.1 with
      | none => acc
      | some actualCol => perturbRows actualCol m rand acc.1 acc.2) (data, 0)

theorem perturbRows_spec (col : String) (m : ℚ) (rand : ℕ → ℚ)
    (hm : 0 ≤ m) (hrand : ∀ n, 0 ≤ rand n ∧ rand n < 1) (data : List Row) :
    ∀ cnt : ℕ,
    (perturbRows col m rand data cnt).2 = cnt + data.countP (cellModifiable col) ∧
    (perturbRows col m rand data cnt).1.length = data.length ∧
    ∀ (j : ℕ) (row : Row), data[j]? = some row →
      (cellModifiable col row = false → (perturbRows col m rand data cnt).1[j]? = some row) ∧
      (cellModifiable col row = true → ∃ u : ℚ, -m ≤ u ∧ u ≤ m ∧
        (perturbRows col m rand data cnt).1[j]? = some (perturbCell col m u row)) := by
  induction data with
  | nil =>
    intro cnt
    refine ⟨by simp [perturbRows], by simp [perturbRows], ?_⟩
    intro j row hj
    simp at hj
  | cons row t ih =>
    intro cnt
    by_cases hmod : cellModifiable col row = true
    · have hrec := ih (cnt + 1)
      have heq : perturbRows col m rand (row :: t) cnt =
          (perturbCell col m (qMul (qSub (qMul (rand cnt) 2) 1) m) row ::
            (perturbRows col m rand t (cnt + 1)).1,
           (perturbRows col m rand t (cnt + 1)).2) := by
        simp [perturbRows, hmod]
      refine ⟨?_, ?_, ?_⟩
      · rw [heq, hrec.1, List.countP_cons_of_pos _ _ hmod]
        omega
      · rw [heq]
        simpa using hrec.2.1
      · intro j row' hj
        match j with
        | 0 =>
          simp only [List.getElem?_cons_zero, Option.some.injEq] at hj
          subst hj
          constructor
          · intro hfalse
            rw [hmod] at hfalse
            exact absurd hfalse (by simp)
          · intro _
            refine ⟨qMul (qSub (qMul (rand cnt) 2) 1) m, ?_, ?_, ?_⟩
            · rw [qMul_eq, qSub_eq, qMul_eq]
              have hr := hrand cnt
              nlinarith [mul_nonneg hr.1 hm, mul_le_mul_of_nonneg_right (le_of_lt hr.2) hm]
            · rw [qMul_eq, qSub_eq, qMul_eq]
              have hr := hrand cnt
              nlinarith [mul_nonneg hr.1 hm, mul_le_mul_of_nonneg_right (le_of_lt hr.2) hm]
            · rw [heq]
              simp
        | j' + 1 =>
          simp only [List.getElem?_cons_succ] at hj
          have h := hrec.2.2 j' row' hj
          rw [heq]
          simpa using h
    · have hmod' : cellModifiable col row = false := by
        cases h : cellModifiable col row
        · rfl
        · exact absurd h hmod
      have hrec := ih cnt
      have heq : perturbRows col m rand (row :: t) cnt =
          (row :: (perturbRows col m rand t cnt).1,
           (perturbRows col m rand t cnt).2) := by
        simp [perturbRows, hmod']
      refine ⟨?_, ?_, ?_⟩
      · rw [heq, hrec.1, List.countP_cons_of_neg _ _ hmod]
      · rw [heq]
        simpa using hrec.2.1
      · intro j row' hj
        match j with
        | 0 =>
          simp only [List.getElem?_cons_zero, Option.some.injEq] at hj
          subst hj
          constructor
          · intro _
            rw [heq]
            simp
          · intro htrue
            rw [htrue] at hmod'
            exact absurd hmod' (by simp)
        | j' + 1 =>
          simp only [List.getElem?_cons_succ] at hj
          have h := hrec.2.2 j' row' hj
          rw [heq]
          simpa using h

/-- C4: Perturbation bound and rounding.  For a feature-map entry carrying a
numeric jitter magnitude `m` that resolves to a column, every non-null
numeric-coercible cell of that column is replaced by `round(v + U)` for some
`U ∈ [-m, m]`, where `round` is to the nearest integer when `m ≥ 1` and to
one decimal place otherwise; null/non-numeric cells are unmodified, the
returned count is the number of modified cells, and for the scenario map
`{"Age": 2}` with input value `50` the output is an integer in `[48, 52]`. -/
theorem perturbation_bound_rounding
    (mapCol col : String) (m : ℚ) (rand : ℕ → ℚ) (data : List Row)
    (columns : List String)
    (hm : 0 ≤ m) (hrand : ∀ n, 0 ≤ rand n ∧ rand n < 1)
    (hcol : findColumnCaseInsensitive columns mapCol = some col) :
    ((anonymizeNumericValues [(mapCol, FAction.num m)] rand data columns).2 =
        data.countP (cellModifiable col) ∧
      (anonymizeNumericValues [(mapCol, FAction.num m)] rand data columns).1.length =
        data.length ∧
      ∀ (j : ℕ) (row : Row), data[j]? = some row →
        (cellModifiable col row = false →
          (anonymizeNumericValues [(mapCol, FAction.num m)] rand data columns).1[j]? =
            some row) ∧
        (cellModifiable col row = true → ∃ u : ℚ, -m ≤ u ∧ u ≤ m ∧
          (anonymizeNumericValues [(mapCol, FAction.num m)] rand data columns).1[j]? =
            some (setVal row col (roundCell m
              ((jsParseFloatOpt (getVal row col)).getD 0 + u))))) ∧
    (∀ x : ℚ, 1 ≤ m → roundCell m x = Value.vNum ((⌊x + 1/2⌋ : ℤ) : ℚ)) ∧
    (∀ x : ℚ, ¬ 1 ≤ m → roundCell m x = Value.vNum (((⌊x * 10 + 1/2⌋ : ℤ) : ℚ) / 10)) ∧
    (∃ k : ℤ, 48 ≤ k ∧ k ≤ 52 ∧
      anonymizeNumericValues [("Age", FAction.num 2)] rand
        [[("Age", Value.vNum 50)]] ["Age"] = ([[("Age", Value.vNum (k : ℚ))]], 1)) := by
  have hhalf : (mkRat 1 2 : ℚ) = 1/2 := by norm_num [Rat.mkRat_eq_div]
  have hunfold : anonymizeNumericValues [(mapCol, FAction.num m)] rand data columns
      = perturbRows col m rand data 0 := by
    simp [anonymizeNumericValues, hcol]
  have hspec := perturbRows_spec col m rand hm hrand data 0
  refine ⟨⟨?_, ?_, ?_⟩, ?_, ?_, ?_⟩
  · rw [hunfold, hspec.1]
    omega
  · rw [hunfold]
    exact hspec.2.1
  · intro j row hj
    have h := hspec.2.2 j row hj
    refine ⟨fun hf => by rw [hunfold]; exact h.1 hf, fun ht => ?_⟩
    obtain ⟨u, hu1, hu2, hu3⟩ := h.2 ht
    refine ⟨u, hu1, hu2, ?_⟩
    rw [hunfold, hu3]
    simp only [perturbCell, qAdd_eq]
  · intro x hx
    rw [roundCell, if_pos hx, qAdd_eq, hhalf]
  · intro x hx
    rw [roundCell, if_neg hx, qAdd_eq, qMul_eq, qDiv_eq, hhalf]
  · have hAge : findColumnCaseInsensitive ["Age"] "Age" = some "Age" := by decide
    have hscen : anonymizeNumericValues [("Age", FAction.num 2)] rand
        [[("Age", Value.vNum 50)]] ["Age"]
        = perturbRows "Age" 2 rand [[("Age", Value.vNum 50)]] 0 := by
      simp [anonymizeNumericValues, hAge]
    have hmod : cellModifiable "Age" [("Age", Value.vNum 50)] = true := by decide
    have hrow : perturbRows "Age" 2 rand [[("Age", Value.vNum 50)]] 0
        = ([perturbCell "Age" 2 (qMul (qSub (qMul (rand 0) 2) 1) 2)
            [("Age", Value.vNum 50)]], 1) := by
      simp [perturbRows, hmod]
    have h1 : (jsParseFloatOpt (getVal [("Age", Value.vNum 50)] "Age")).getD 0 = (50 : ℚ) := by
      decide
    have hcell : perturbCell "Age" 2 (qMul (qSub (qMul (rand 0) 2) 1) 2)
        [("Age", Value.vNum 50)]
        = [("Age", Value.vNum ((⌊(50 : ℚ) + (rand 0 * 2 - 1) * 2 + 1/2⌋ : ℤ) : ℚ))] := by
      simp only [perturbCell, roundCell, qAdd_eq, qMul_eq, qSub_eq, hhalf, h1]
      rw [if_pos (by norm_num : (1 : ℚ) ≤ 2)]
      simp [setVal, assocSet]
    have hr := hrand 0
    refine ⟨⌊(50 : ℚ) + (rand 0 * 2 - 1) * 2 + 1/2⌋, ?_, ?_, ?_⟩
    · refine Int.le_floor.mpr ?_
      push_cast
      nlinarith [hr.1]
    · have hlt : ⌊(50 : ℚ) + (rand 0 * 2 - 1) * 2 + 1/2⌋ < 53 := by
        refine Int.floor_lt.mpr ?_
        push_cast
        nlinarith [hr.2]
      omega
    · rw [hscen, hrow, hcell]

/-- C4 witness: with `rand = 1/2` (so `U = 0`), the `{"Age": 2}` / `50`
scenario produces an integer in `[48, 52]` via the claim theorem, all
hypotheses checked at these concrete inputs. -/
theorem perturbation_bound_rounding_witness :
    (0 : ℚ) ≤ 2 ∧ (0 : ℚ) ≤ mkRat 1 2 ∧ mkRat 1 2 < 1 ∧
    findColumnCaseInsensitive ["Age"] "Age" = some "Age" ∧
    (∃ k : ℤ, 48 ≤ k ∧ k ≤ 52 ∧
      anonymizeNumericValues [("Age", FAction.num 2)] (fun _ => mkRat 1 2)
        [[("Age", Value.vNum 50)]] ["Age"] = ([[("Age", Value.vNum (k : ℚ))]], 1)) := by
  refine ⟨by decide, by decide, by decide, by decide, ?_⟩
  exact (perturbation_bound_rounding "Age" "Age" 2 (fun _ => mkRat 1 2)
    [[("Age", Value.vNum 50)]] ["Age"] (by decide)
    (fun n => by show (0 : ℚ) ≤ mkRat 1 2 ∧ mkRat 1 2 < 1; exact ⟨by decide, by decide⟩)
    (by decide)).2.2.2

/-! ### C5: resolver normalization (script.js 66-69, part_001 436-446)

The resolver itself (`findColumnCaseInsensitive`) normalizes with
`toLowerCase().trim()` only.  JavaScript `trim` strips the non-breaking
space and the BOM at the edges, but not the zero-width space, and nothing
internal.  The fuller normalization the claim describes lives in
part_001's `normalizeColumnName`, a separate pass applied to the row keys
and header cells at ingest, not inside every lookup. -/

/-- The character class of the zero-width regex, U+200B through U+200D and U+FEFF: zero-width space,
zero-width (non-)joiner, BOM. -/
def isZeroWidth (c : Char) : Bool :=
  c == Char.ofNat 0x200B || c == Char.ofNat 0x200C ||
  c == Char.ofNat 0x200D || c == Char.ofNat 0xFEFF

/-- `.replace(/\s+/g, ' ')`: each maximal whitespace run becomes one
space.  The flag records whether the previous character was whitespace. -/
def collapseWsAux : Bool → List Char → List Char
  | _, [] => []
  | inWs, c :: t =>
    if jsWhitespaceChar c then
      if inWs then collapseWsAux true t
      else ' ' :: collapseWsAux true t
    else c :: collapseWsAux false t

/-- `normalizeColumnName` of part_001: falsy guard, trim, strip zero-width
characters, non-breaking space to space, collapse whitespace runs, trim
again. -/
def normalizeColumnName (name : String) : String :=
  if name = "" then ""
  else
    let l1 := jsTrimList name.data
    let l2 := l1.filter (fun c => !(isZeroWidth c))
    let l3 := l2.map (fun c => if c = Char.ofNat 0xA0 then ' ' else c)
    ⟨jsTrimList (collapseWsAux false l3)⟩

theorem findColumn_first_match (target : String) (columns : List String) :
    ∀ col : String, findColumnCaseInsensitive columns target = some col ↔
      ∃ i : ℕ, columns[i]? = some col ∧ jsLowerTrim col = jsLowerTrim target ∧
        ∀ j, j < i → ∀ c, columns[j]? = some c → jsLowerTrim c ≠ jsLowerTrim target := by
  induction columns with
  | nil =>
    intro col
    simp [findColumnCaseInsensitive]
  | cons hd t ih =>
    intro col
    by_cases hhd : jsLowerTrim hd = jsLowerTrim target
    · have hfind : findColumnCaseInsensitive (hd :: t) target = some hd := by
        simp [findColumnCaseInsensitive, List.find?_cons_of_pos, hhd]
      rw [hfind]
      constructor
      · intro h
        injection h with h
        subst h
        exact ⟨0, by simp, hhd, by omega⟩
      · rintro ⟨i, hi, hcol, hfirst⟩
        match i with
        | 0 =>
          simp only [List.getElem?_cons_zero, Option.some.injEq] at hi
          rw [hi]
        | i' + 1 =>
          exact absurd hhd (hfirst 0 (by omega) hd (by simp))
    · have hfind : findColumnCaseInsensitive (hd :: t) target =
          findColumnCaseInsensitive t target := by
        simp [findColumnCaseInsensitive, List.find?_cons_of_neg, hhd]
      rw [hfind, ih col]
      constructor
      · rintro ⟨i, hi, hcol, hfirst⟩
        refine ⟨i + 1, by simpa using hi, hcol, ?_⟩
        intro j hj c hc
        match j with
        | 0 =>
          simp only [List.getElem?_cons_zero, Option.some.injEq] at hc
          rw [hc] at hhd
          exact hhd
        | j' + 1 =>
          simp only [List.getElem?_cons_succ] at hc
          exact hfirst j' (by omega) c hc
      · rintro ⟨i, hi, hcol, hfirst⟩
        match i with
        | 0 =>
          simp only [List.getElem?_cons_zero, Option.some.injEq] at hi
          rw [hi] at hhd
          exact absurd hcol hhd
        | i' + 1 =>
          simp only [List.getElem?_cons_succ] at hi
          refine ⟨i', hi, hcol, ?_⟩
          intro j hj c hc
          exact hfirst (j + 1) (by omega) c (by simpa using hc)

/-- C5: Resolver normalization.  `findColumnCaseInsensitive` returns the
first column whose `toLowerCase().trim()` form equals the target's — that
(not the fuller pipeline) is the normalization applied identically to each
stored header and to the lookup target.  The triple named by the claim
does resolve a lookup for `"pnr"`, because JavaScript `trim` strips the
non-breaking space at the edges; zero-width stripping and internal
whitespace collapsing are performed only by part_001's
`normalizeColumnName` ingest pass, after which the resolver succeeds. -/
theorem resolve_normalization :
    (∀ (columns : List String) (target col : String),
      findColumnCaseInsensitive columns target = some col ↔
        ∃ i : ℕ, columns[i]? = some col ∧ jsLowerTrim col = jsLowerTrim target ∧
          ∀ j, j < i → ∀ c, columns[j]? = some c →
            jsLowerTrim c ≠ jsLowerTrim target) ∧
    findColumnCaseInsensitive ["  Pnr"] "pnr" = some "  Pnr" ∧
    findColumnCaseInsensitive ["PNR"] "pnr" = some "PNR" ∧
    findColumnCaseInsensitive ["pnr "] "pnr" = some "pnr " ∧
    normalizeColumnName "pnr​" = "pnr" ∧
    normalizeColumnName "a   b" = "a b" ∧
    findColumnCaseInsensitive [normalizeColumnName "pnr​"] "pnr" = some "pnr" := by
  refine ⟨fun columns target col => findColumn_first_match target columns col,
    by decide, by decide, by decide, by decide, by decide, by decide⟩

/-- C5 counterexample: the resolver does not strip zero-width characters
and does not collapse internal whitespace, so a stored header `"pnr​"`
(trailing zero-width space) or `"a  b"` fails a lookup whose
`normalizeColumnName` form matches — the claim's "normalization ...
strips zero-width/BOM characters ... collapses repeated internal
whitespace" does not describe the resolver. -/
theorem resolve_zeroWidth_cex :
    findColumnCaseInsensitive ["pnr​"] "pnr" = none ∧
    normalizeColumnName "pnr​" = normalizeColumnName "pnr" ∧
    findColumnCaseInsensitive ["a  b"] "a b" = none ∧
    normalizeColumnName "a  b" = normalizeColumnName "a b" := by
  refine ⟨by decide, by decide, by decide, by decide⟩

/-! ### C8: header discovery (part_001 460-475 vs script.js 422)

A sheet is a declared header row (a cell may be absent) and body rows
aligned with it by column index (`none` is an empty cell).
`XLSX.utils.sheet_to_json` omits the key of every empty cell, so a row
object holds keys only for populated cells. -/

structure Sheet where
  header : List (Option String)
  body : List (List (Option Value))
deriving Repr

/-- One `sheet_to_json` row object: a key per populated cell, named by the
header cell of the same column (absent header cells produce no key here;
the sources' sheets always name their columns). -/
def rowKeys (header : List (Option String)) (cells : List (Option Value)) : Row :=
  (header.zip cells).filterMap (fun p =>
    match p with
    | (some h, some v) => some (h, v)
    | _ => none)

/-- `sheet_to_json(firstSheet)`. -/
def sheetToJson (s : Sheet) : List Row :=
  s.body.map (rowKeys s.header)

/-- `Object.keys(jsonData[0])` of script.js line 422: the column list is
inferred from the keys present in the first data row. -/
def columnsFirstRow (data : List Row) : List String :=
  match data with
  | [] => []
  | r :: _ => r.map Prod.fst

/-- part_001's header-row read: each present header cell, normalized,
kept when non-empty. -/
def sheetColumns (header : List (Option String)) : List String :=
  header.filterMap (fun h =>
    match h with
    | none => none
    | some nm =>
      let n := normalizeColumnName nm
      if n = "" then none else some n)

/-- part_001's key-normalization pass: each row object is rebuilt with
normalized keys (`normalizedRow[normalizeColumnName(key)] = value`). -/
def normalizeRowKeys (row : Row) : Row :=
  row.foldl (fun acc p => assocSet acc (normalizeColumnName p.1) p.2) []

/-- part_001's authoritative column list: the sheet header columns, else
(when header reading yields nothing) the union of keys across all rows in
first-occurrence order (`[...new Set(jsonData.flatMap(Object.keys))]`). -/
def resolvedColumns (header : List (Option String)) (data : List Row) : List String :=
  let sc := sheetColumns header
  if sc.length > 0 then sc
  else uniqueFirst (data.map (fun r => r.map Prod.fst)).flatten

/-- C8: Header discovery.  In the part_001 variant the claim holds: when
the declared header row yields any columns, the resolved column list is
exactly the normalized header cells — every declared (non-blank) header
appears, independent of which keys the first data row happens to carry —
and only when header reading yields nothing does the list fall back to the
union of keys across all rows; in particular a column empty in the first
data row but populated later is resolved.  (script.js line 422 instead
takes `Object.keys` of the first data row; see the counterexample.) -/
theorem header_driven_columns :
    (∀ (header : List (Option String)) (data : List Row),
      sheetColumns header ≠ [] → resolvedColumns header data = sheetColumns header) ∧
    (∀ (header : List (Option String)) (data : List Row) (nm : String),
      some nm ∈ header → normalizeColumnName nm ≠ "" →
      normalizeColumnName nm ∈ resolvedColumns header data) ∧
    (∀ (header : List (Option String)) (data : List Row) (col : String),
      sheetColumns header = [] →
      (col ∈ resolvedColumns header data ↔ ∃ r ∈ data, ∃ v, (col, v) ∈ r)) ∧
    sheetToJson ⟨[some "A", some "B"],
        [[some (Value.vNum 1), none], [some (Value.vNum 1), some (Value.vNum 2)]]⟩ =
      [[("A", Value.vNum 1)], [("A", Value.vNum 1), ("B", Value.vNum 2)]] ∧
    resolvedColumns [some "A", some "B"]
      [[("A", Value.vNum 1)], [("A", Value.vNum 1), ("B", Value.vNum 2)]] = ["A", "B"] := by
  have hhead : ∀ (header : List (Option String)) (data : List Row),
      sheetColumns header ≠ [] → resolvedColumns header data = sheetColumns header := by
    intro header data h
    rw [resolvedColumns]
    simp only [if_pos (List.length_pos.mpr h)]
  refine ⟨hhead, ?_, ?_, by decide, by decide⟩
  · intro header data nm hmem hn
    have hsc : normalizeColumnName nm ∈ sheetColumns header := by
      rw [sheetColumns, List.mem_filterMap]
      exact ⟨some nm, hmem, by simp [hn]⟩
    rw [hhead header data (List.ne_nil_of_mem hsc)]
    exact hsc
  · intro header data col h
    rw [resolvedColumns]
    simp only [h, List.length_nil, if_neg (by omega : ¬ (0 : ℕ) > 0)]
    rw [mem_uniqueFirst]
    simp only [List.mem_flatten, List.mem_map]
    constructor
    · rintro ⟨l, ⟨r, hr, rfl⟩, hcol⟩
      obtain ⟨p, hp, hpc⟩ := List.mem_map.mp hcol
      exact ⟨r, hr, p.2, by rw [← hpc]; exact hp⟩
    · rintro ⟨r, hr, v, hv⟩
      exact ⟨r.map Prod.fst, ⟨r, hr, rfl⟩, List.mem_map.mpr ⟨(col, v), hv, rfl⟩⟩

/-- C8 counterexample: script.js line 422 (`Object.keys(jsonData[0])`)
infers columns from the first data row, so a column whose cell is empty in
the first row but populated later is silently dropped — header-driven
discovery (part_001) finds it. -/
theorem columns_first_row_cex :
    columnsFirstRow [[("A", Value.vNum 1)], [("A", Value.vNum 1), ("B", Value.vNum 2)]] =
      ["A"] ∧
    "B" ∉ columnsFirstRow [[("A", Value.vNum 1)], [("A", Value.vNum 1), ("B", Value.vNum 2)]] ∧
    ("B", Value.vNum 2) ∈ [("A", Value.vNum 1), ("B", Value.vNum 2)] ∧
    "B" ∈ resolvedColumns [some "A", some "B"]
      [[("A", Value.vNum 1)], [("A", Value.vNum 1), ("B", Value.vNum 2)]] := by
  refine ⟨by decide, by decide, by decide, by decide⟩

/-! ### C9: derived valve area (`calculateAVA`, part_000 290-326)

`Math.PI` is a fixed numeric constant of the runtime; it enters here as
the parameter `piQ`, so every formula below is exact in `piQ`. -/

/-- The row guard: all three `parseFloat`s succeed and the aortic VTI
denominator is non-zero (`!isNaN(...) && ... && aorticVti !== 0`). -/
def avaValid (dCol sCol tCol : String) (row : Row) : Bool :=
  match jsParseFloatOpt (getVal row dCol), jsParseFloatOpt (getVal row sCol),
      jsParseFloatOpt (getVal row tCol) with
  | some _, some _, some vt => !(vt = 0)
  | _, _, _ => false

/-- One `forEach` body: on a valid row `row['AVA'] = Math.PI * (d/10/2)^2 *
lvotVti / aorticVti`, otherwise `row['AVA'] = null`; the row is written
back either way. -/
def rowAVA (piQ : ℚ) (dCol sCol tCol : String) (row : Row) : Row :=
  match jsParseFloatOpt (getVal row dCol), jsParseFloatOpt (getVal row sCol),
      jsParseFloatOpt (getVal row tCol) with
  | some d, some vs, some vt =>
    if vt = 0 then setVal row "AVA" Value.vNull
    else
      setVal row "AVA" (Value.vNum (qDiv (qMul (qMul piQ
        (qMul (qDiv (qDiv d 10) 2) (qDiv (qDiv d 10) 2))) vs) vt))
  | _, _, _ => setVal row "AVA" Value.vNull

/-- `calculateAVA(data, columns)` of part_000: resolves the three input
columns with the lowercase-only resolver (throwing when any is missing),
rewrites every row, and reports how many rows were computed. -/
def calculateAVA (piQ : ℚ) (data : List Row) (columns : List String) :
    Except String (ℕ × List Row) :=
  match findColumnNoTrim columns "LVOT Diam", findColumnNoTrim columns "LVOTI (cm)",
      findColumnNoTrim columns "VTI (cm)_1" with
  | some dCol, some sCol, some tCol =>
    .ok (data.countP (avaValid dCol sCol tCol), data.map (rowAVA piQ dCol sCol tCol))
  | _, _, _ => .error "Required columns for AVA calculation not found"

/-- C9: Derived valve-area totality.  When the three input columns resolve,
`calculateAVA` succeeds; every row is retained in place with the `AVA`
field always present — the explicit null marker whenever an input is
missing/non-numeric or the denominator is exactly zero, and otherwise
`piQ * (d/10/2)^2 * VTI_lvot / VTI_aortic` (`piQ` standing for `Math.PI`);
the returned count is the number of successfully computed rows. -/
theorem calculateAVA_totality (piQ : ℚ) (data : List Row) (columns : List String)
    (dCol sCol tCol : String)
    (hd : findColumnNoTrim columns "LVOT Diam" = some dCol)
    (hs : findColumnNoTrim columns "LVOTI (cm)" = some sCol)
    (ht : findColumnNoTrim columns "VTI (cm)_1" = some tCol) :
    ∃ out : List Row,
      calculateAVA piQ data columns = .ok (data.countP (avaValid dCol sCol tCol), out) ∧
      out.length = data.length ∧
      ∀ (j : ℕ) (row : Row), data[j]? = some row →
        (avaValid dCol sCol tCol row = false →
          out[j]? = some (setVal row "AVA" Value.vNull)) ∧
        (avaValid dCol sCol tCol row = true →
          ∃ d vs vt : ℚ, jsParseFloatOpt (getVal row dCol) = some d ∧
            jsParseFloatOpt (getVal row sCol) = some vs ∧
            jsParseFloatOpt (getVal row tCol) = some vt ∧ vt ≠ 0 ∧
            out[j]? = some (setVal row "AVA"
              (Value.vNum (piQ * (d / 10 / 2 * (d / 10 / 2)) * vs / vt)))) := by
  refine ⟨data.map (rowAVA piQ dCol sCol tCol), ?_, by simp, ?_⟩
  · simp only [calculateAVA, hd, hs, ht]
  · intro j row hj
    have hmap : (data.map (rowAVA piQ dCol sCol tCol))[j]? =
        some (rowAVA piQ dCol sCol tCol row) := by
      rw [List.getElem?_map, hj]
      rfl
    constructor
    · intro hf
      rw [hmap]
      rcases h1 : jsParseFloatOpt (getVal row dCol) with _ | d <;>
        rcases h2 : jsParseFloatOpt (getVal row sCol) with _ | vs <;>
          rcases h3 : jsParseFloatOpt (getVal row tCol) with _ | vt <;>
            simp only [avaValid, h1, h2, h3, Bool.not_eq_false', decide_eq_true_eq] at hf <;>
            simp only [rowAVA, h1, h2, h3]
      rw [if_pos hf]
    · intro htv
      rcases h1 : jsParseFloatOpt (getVal row dCol) with _ | d <;>
        rcases h2 : jsParseFloatOpt (getVal row sCol) with _ | vs <;>
          rcases h3 : jsParseFloatOpt (getVal row tCol) with _ | vt <;>
            simp only [avaValid, h1, h2, h3, Bool.not_eq_true',
              decide_eq_false_iff_not] at htv <;>
            first
            | exact absurd htv Bool.false_ne_true
            | (refine ⟨d, vs, vt, rfl, rfl, rfl, htv, ?_⟩
               rw [hmap]
               simp only [rowAVA, h1, h2, h3, if_neg htv, qDiv_eq, qMul_eq])

/-- C9 witness: a two-row table (one computable row, one with a zero
denominator) through the claim theorem at `piQ = 3`, hypotheses checked
concretely; the count is 1 and both rows are retained. -/
theorem calculateAVA_totality_witness :
    ∃ out : List Row,
      calculateAVA 3
        [[("LVOT Diam", Value.vNum 20), ("LVOTI (cm)", Value.vNum 10),
          ("VTI (cm)_1", Value.vNum 5)],
         [("LVOT Diam", Value.vNum 20), ("LVOTI (cm)", Value.vNum 10),
          ("VTI (cm)_1", Value.vNum 0)]]
        ["LVOT Diam", "LVOTI (cm)", "VTI (cm)_1"] = .ok (1, out) ∧
      out.length = 2 := by
  obtain ⟨out, h1, h2, h3⟩ := calculateAVA_totality 3
    [[("LVOT Diam", Value.vNum 20), ("LVOTI (cm)", Value.vNum 10),
      ("VTI (cm)_1", Value.vNum 5)],
     [("LVOT Diam", Value.vNum 20), ("LVOTI (cm)", Value.vNum 10),
      ("VTI (cm)_1", Value.vNum 0)]]
    ["LVOT Diam", "LVOTI (cm)", "VTI (cm)_1"]
    "LVOT Diam" "LVOTI (cm)" "VTI (cm)_1" (by decide) (by decide) (by decide)
  have hcnt : List.countP (avaValid "LVOT Diam" "LVOTI (cm)" "VTI (cm)_1")
      [[("LVOT Diam", Value.vNum 20), ("LVOTI (cm)", Value.vNum 10),
        ("VTI (cm)_1", Value.vNum 5)],
       [("LVOT Diam", Value.vNum 20), ("LVOTI (cm)", Value.vNum 10),
        ("VTI (cm)_1", Value.vNum 0)]] = 1 := by decide
  rw [hcnt] at h1
  exact ⟨out, h1, h2⟩
